import Mathlib

/-!
Verification development for the transaction reconciliation / reporting core
of the kadak_chah repository (collection, outstanding and P&L breakdown
builders, phone normalization, and the report assembler's customer-summary
and ledger rows).

Modelling conventions (shallow embedding of the TypeScript source):
* A JavaScript number is `JsNum`: a finite rational, `NaN`, or a signed
  infinity.  A raw record field is `JsVal`, which additionally distinguishes
  `undefined` and `null` (they behave differently under `Number(·)` and the
  nullish operator `??`).  Non-numeric truthy values whose `Number(·)` is not
  finite are represented by the infinities.
* JS strings used as identifiers / names are modelled as `Option String`,
  where `none` stands for a falsy value (absent, null, or the empty string);
  the code under test only tests truthiness of and equality between them.
* Date strings (`created_at`, `due_date`) are modelled by their epoch
  timestamp as `Option Int` (`none` = absent/falsy); the code only passes
  them to `new Date(·).getTime()` for comparisons.
* JS `Map` objects (insertion ordered) are modelled as association lists
  with set-replaces / append-on-new semantics; `Array.prototype.sort`
  (stable in ECMAScript) is modelled by a stable insertion sort.
-/

namespace Kadak

/-- A JavaScript number: finite rational, NaN, or a signed infinity. -/
inductive JsNum where
  | num (q : ℚ)
  | nanJ
  | posInf
  | negInf
deriving DecidableEq, Repr

/-- A raw JS record field: `undefined`, `null`, or a number.  Truthy values
whose `Number(·)` is non-finite are represented by the infinities. -/
inductive JsVal where
  | undef
  | nullV
  | num (q : ℚ)
  | nanJ
  | posInf
  | negInf
deriving DecidableEq, Repr

/-- JS `Number(v)`: `undefined ↦ NaN`, `null ↦ 0`, numbers unchanged. -/
def JsVal.toNum : JsVal → JsNum
  | .undef => .nanJ
  | .nullV => .num 0
  | .num q => .num q
  | .nanJ => .nanJ
  | .posInf => .posInf
  | .negInf => .negInf

/-- JS truthiness of a field value. -/
def JsVal.truthy : JsVal → Bool
  | .undef => false
  | .nullV => false
  | .nanJ => false
  | .num q => q != 0
  | .posInf => true
  | .negInf => true

/-- JS `Number(v || 0)`. -/
def JsVal.orZero (v : JsVal) : JsNum :=
  if v.truthy then v.toNum else .num 0

/-- JS nullish coalescing `a ?? b`. -/
def JsVal.nullish (a b : JsVal) : JsVal :=
  match a with
  | .undef => b
  | .nullV => b
  | _ => a

/-- JS `Number(v ?? 0)`. -/
def JsVal.nullishZeroNum (v : JsVal) : JsNum :=
  (v.nullish (.num 0)).toNum

/-- JS `Number.isFinite`. -/
def JsNum.isFinite : JsNum → Bool
  | .num _ => true
  | _ => false

/-- `Number.isFinite(x) ? x : 0` as a rational. -/
def JsNum.finiteOrZero : JsNum → ℚ
  | .num q => q
  | _ => 0

/-- The finite value of a JS number, if any. -/
def JsNum.toFinite? : JsNum → Option ℚ
  | .num q => some q
  | _ => none

/-- JS truthiness of a number (`0` and `NaN` are falsy). -/
def JsNum.truthy : JsNum → Bool
  | .num q => q != 0
  | .nanJ => false
  | _ => true

/-- JS unary minus. -/
def JsNum.neg : JsNum → JsNum
  | .num q => .num (-q)
  | .nanJ => .nanJ
  | .posInf => .negInf
  | .negInf => .posInf

/-- JS addition (NaN-propagating; `∞ + (−∞) = NaN`). -/
def JsNum.add : JsNum → JsNum → JsNum
  | .nanJ, _ => .nanJ
  | _, .nanJ => .nanJ
  | .posInf, .negInf => .nanJ
  | .negInf, .posInf => .nanJ
  | .posInf, _ => .posInf
  | _, .posInf => .posInf
  | .negInf, _ => .negInf
  | _, .negInf => .negInf
  | .num a, .num b => .num (a + b)

/-- JS subtraction. -/
def JsNum.sub (a b : JsNum) : JsNum := a.add b.neg

/-- JS division.  Signed zero is not modelled: division of a nonzero finite
number by zero yields the infinity matching the dividend's sign (i.e. a `+0`
divisor is assumed), and `0/0 = NaN`. -/
def JsNum.div : JsNum → JsNum → JsNum
  | .nanJ, _ => .nanJ
  | _, .nanJ => .nanJ
  | .posInf, .posInf => .nanJ
  | .posInf, .negInf => .nanJ
  | .negInf, .posInf => .nanJ
  | .negInf, .negInf => .nanJ
  | .posInf, .num q => if q < 0 then .negInf else .posInf
  | .negInf, .num q => if q < 0 then .posInf else .negInf
  | .num _, .posInf => .num 0
  | .num _, .negInf => .num 0
  | .num a, .num b =>
    if b = 0 then (if a = 0 then .nanJ else if a < 0 then .negInf else .posInf)
    else .num (a / b)

/-- JS `<` (false whenever NaN is involved). -/
def JsNum.lt : JsNum → JsNum → Bool
  | .nanJ, _ => false
  | _, .nanJ => false
  | .negInf, .negInf => false
  | .negInf, _ => true
  | _, .negInf => false
  | .posInf, _ => false
  | .num _, .posInf => true
  | .num a, .num b => a < b

/-- JS `<=` (false whenever NaN is involved). -/
def JsNum.le : JsNum → JsNum → Bool
  | .nanJ, _ => false
  | _, .nanJ => false
  | .negInf, _ => true
  | _, .negInf => false
  | _, .posInf => true
  | .posInf, _ => false
  | .num a, .num b => a ≤ b

/-- JS `Math.max` of two numbers (NaN-propagating). -/
def JsNum.max (a b : JsNum) : JsNum :=
  if a = .nanJ ∨ b = .nanJ then .nanJ else if a.le b then b else a

/-- JS `Math.abs`. -/
def JsNum.abs : JsNum → JsNum
  | .num q => .num |q|
  | .nanJ => .nanJ
  | _ => .posInf

/-- JS `a || b` on numbers. -/
def JsNum.jsOr (a b : JsNum) : JsNum :=
  if a.truthy then a else b

/-- Sort key of a JS number under a subtraction-based comparator.
`NaN` never occurs as a sort key on the code paths modelled here; it is
mapped to `⊥` to make the function total. -/
def JsNum.sortKey : JsNum → WithBot (WithTop ℚ)
  | .num q => (((q : WithTop ℚ) : WithBot (WithTop ℚ)))
  | .posInf => ((⊤ : WithTop ℚ) : WithBot (WithTop ℚ))
  | .negInf => ⊥
  | .nanJ => ⊥

/-- `toFiniteNumber` (source `part_001` lines 28–32): the numeric value of a
field if it is a finite number, else `null`; `null`/`undefined` map to
`null` before coercion. -/
def toFiniteNumber (v : JsVal) : Option ℚ :=
  match v with
  | .undef => none
  | .nullV => none
  | _ => v.toNum.toFinite?

/-- `pickFirstNumber` (source `part_001` lines 34–40): the first candidate
that normalizes to a finite number. -/
def pickFirstNumber : List JsVal → Option ℚ
  | [] => none
  | v :: vs =>
    match toFiniteNumber v with
    | some q => some q
    | none => pickFirstNumber vs

section StableSort

variable {α : Type} {β : Type} [LinearOrder β]

/-- Insert `x` into a descending-sorted list, after all elements whose key is
`≥ key x` would conflict: `x` is placed before the first element with a
strictly smaller key, and after elements with an equal key that came earlier
— the stable behaviour of `Array.prototype.sort` with comparator
`(a, b) => key b - key a`. -/
def insDesc (key : α → β) (x : α) : List α → List α
  | [] => [x]
  | y :: ys => if key x < key y then y :: insDesc key x ys else x :: y :: ys

/-- Stable sort, descending by `key`. -/
def sortDescBy (key : α → β) : List α → List α
  | [] => []
  | x :: xs => insDesc key x (sortDescBy key xs)

/-- Insert `x` into an ascending-sorted list of elements that came later in
the input; `x` goes before elements with an equal key. -/
def insAsc (key : α → β) (x : α) : List α → List α
  | [] => [x]
  | y :: ys => if key y < key x then y :: insAsc key x ys else x :: y :: ys

/-- Stable sort, ascending by `key`. -/
def sortAscBy (key : α → β) : List α → List α
  | [] => []
  | x :: xs => insAsc key x (sortAscBy key xs)

/-- The first element of the list attaining the minimal key. -/
def firstMinBy (key : α → β) : List α → Option α
  | [] => none
  | x :: xs =>
    match firstMinBy key xs with
    | none => some x
    | some m => if key m < key x then some m else some x

theorem insDesc_perm (key : α → β) (x : α) (l : List α) :
    List.Perm (insDesc key x l) (x :: l) := by
  induction l with
  | nil => simp [insDesc]
  | cons y ys ih =>
    simp only [insDesc]
    split
    · exact ((ih.cons y).trans (List.Perm.swap x y ys))
    · exact List.Perm.refl _

theorem sortDescBy_perm (key : α → β) (l : List α) :
    List.Perm (sortDescBy key l) l := by
  induction l with
  | nil => simp [sortDescBy]
  | cons x xs ih =>
    exact (insDesc_perm key x (sortDescBy key xs)).trans (ih.cons x)

theorem insDesc_pairwise (key : α → β) (x : α) (l : List α)
    (h : l.Pairwise (fun a b => key b ≤ key a)) :
    (insDesc key x l).Pairwise (fun a b => key b ≤ key a) := by
  induction l with
  | nil => simp [insDesc]
  | cons y ys ih =>
    rcases List.pairwise_cons.mp h with ⟨hy, hys⟩
    simp only [insDesc]
    split
    · rename_i hlt
      refine List.pairwise_cons.mpr ⟨?_, ih hys⟩
      intro b hb
      rcases List.mem_cons.mp ((insDesc_perm key x ys).mem_iff.mp hb) with hb | hb
      · subst hb; exact le_of_lt hlt
      · exact hy b hb
    · rename_i hge
      refine List.pairwise_cons.mpr ⟨?_, h⟩
      intro b hb
      rcases List.mem_cons.mp hb with hb | hb
      · subst hb; exact le_of_not_lt hge
      · exact le_trans (hy b hb) (le_of_not_lt hge)

theorem sortDescBy_pairwise (key : α → β) (l : List α) :
    (sortDescBy key l).Pairwise (fun a b => key b ≤ key a) := by
  induction l with
  | nil => simp [sortDescBy]
  | cons x xs ih => exact insDesc_pairwise key x _ ih

/-- Inserting an element whose key is `v` leaves it in front of every other
element with key `v` (it is only moved past strictly larger keys). -/
theorem insDesc_filter_eq (key : α → β) (x : α) (l : List α) (v : β)
    (hx : key x = v) :
    (insDesc key x l).filter (fun a => decide (key a = v)) =
      x :: l.filter (fun a => decide (key a = v)) := by
  induction l with
  | nil => simp [insDesc, hx]
  | cons y ys ih =>
    simp only [insDesc]
    split
    · rename_i hlt
      have hyv : ¬ (key y = v) := by
        intro hyv
        rw [hx, hyv] at hlt
        exact lt_irrefl v hlt
      simp only [List.filter_cons, decide_eq_true_eq]
      rw [if_neg hyv, ih]
      simp [hyv]
    · simp [List.filter_cons, hx]

/-- Inserting an element whose key is not `v` does not disturb the sublist of
elements with key `v`. -/
theorem insDesc_filter_ne (key : α → β) (x : α) (l : List α) (v : β)
    (hx : key x ≠ v) :
    (insDesc key x l).filter (fun a => decide (key a = v)) =
      l.filter (fun a => decide (key a = v)) := by
  induction l with
  | nil => simp [insDesc, hx]
  | cons y ys ih =>
    simp only [insDesc]
    split
    · simp only [List.filter_cons]
      rw [ih]
    · simp [List.filter_cons, hx]

/-- Stability of the descending sort: for each key value, the sublist of
elements carrying that key is unchanged. -/
theorem sortDescBy_filter (key : α → β) (l : List α) (v : β) :
    (sortDescBy key l).filter (fun a => decide (key a = v)) =
      l.filter (fun a => decide (key a = v)) := by
  induction l with
  | nil => simp [sortDescBy]
  | cons x xs ih =>
    simp only [sortDescBy]
    by_cases hx : key x = v
    · rw [insDesc_filter_eq key x _ v hx, ih]
      simp [List.filter_cons, hx]
    · rw [insDesc_filter_ne key x _ v hx, ih]
      simp [List.filter_cons, hx]

theorem insAsc_head? (key : α → β) (x : α) (l : List α) :
    (insAsc key x l).head? =
      match l.head? with
      | none => some x
      | some y => if key y < key x then some y else some x := by
  cases l with
  | nil => simp [insAsc]
  | cons y ys =>
    simp only [insAsc, List.head?_cons]
    split <;> simp

/-- The head of the stable ascending sort is the first element attaining the
minimal key. -/
theorem sortAscBy_head? (key : α → β) (l : List α) :
    (sortAscBy key l).head? = firstMinBy key l := by
  induction l with
  | nil => simp [sortAscBy, firstMinBy]
  | cons x xs ih =>
    simp only [sortAscBy, firstMinBy, insAsc_head?, ih]

theorem insAsc_perm (key : α → β) (x : α) (l : List α) :
    List.Perm (insAsc key x l) (x :: l) := by
  induction l with
  | nil => simp [insAsc]
  | cons y ys ih =>
    simp only [insAsc]
    split
    · exact ((ih.cons y).trans (List.Perm.swap x y ys))
    · exact List.Perm.refl _

theorem sortAscBy_perm (key : α → β) (l : List α) :
    List.Perm (sortAscBy key l) l := by
  induction l with
  | nil => simp [sortAscBy]
  | cons x xs ih =>
    exact (insAsc_perm key x (sortAscBy key xs)).trans (ih.cons x)

end StableSort

/-! ### Record types

Duck-typed transaction / customer / batch records, with every field the
source dereferences.  `Option String` fields hold `none` for a falsy value
(absent, null or empty string); numeric fields are raw `JsVal`s; the date
strings `created_at` / `due_date` are modelled by their epoch timestamps. -/

structure Txn where
  id : Option String := none
  customer_id : Option String := none
  type : Option String := none
  customer_name : Option String := none
  customer : Option String := none
  customer_phone : Option String := none
  tea_name : Option String := none
  batch_name : Option String := none
  tea : Option String := none
  batch_id : Option String := none
  created_at : Option Int := none
  due_date : Option Int := none
  amount : JsVal := .undef
  paid_amount : JsVal := .undef
  sale_amount : JsVal := .undef
  related_sale_amount : JsVal := .undef
  balance : JsVal := .undef
  remaining_balance : JsVal := .undef
  balance_after : JsVal := .undef
  quantity : JsVal := .undef
  qty : JsVal := .undef
  sold_quantity : JsVal := .undef
  total_amount : JsVal := .undef
  sale_rate : JsVal := .undef
  price_per_kg : JsVal := .undef
  rate_per_kg : JsVal := .undef
  purchase_rate : JsVal := .undef
  remaining_quantity : JsVal := .undef
  profit : JsVal := .undef
  pnl : JsVal := .undef
  profit_amount : JsVal := .undef
  total_profit : JsVal := .undef
deriving DecidableEq, Repr

structure Customer where
  id : Option String := none
  full_name : Option String := none
  shop_name : Option String := none
  name : Option String := none
  shop : Option String := none
  whatsapp_number : Option String := none
  contact : Option String := none
  outstanding_balance : JsVal := .undef
deriving DecidableEq, Repr

structure Batch where
  batch_id : Option String := none
  id : Option String := none
  batch_name : Option String := none
  name : Option String := none
  purchase_rate : JsVal := .undef
  purchaseRate : JsVal := .undef
  remaining_quantity : JsVal := .undef
  remainingQuantity : JsVal := .undef
  sold_quantity : JsVal := .undef
  soldQuantity : JsVal := .undef
  avg_sale_rate : JsVal := .undef
  avg_sell_rate : JsVal := .undef
  avg_sale_price : JsVal := .undef
  avg_selling_rate : JsVal := .undef
  total_sale_value : JsVal := .undef
  total_sales_amount : JsVal := .undef
  total_sales_value : JsVal := .undef
  sales_amount : JsVal := .undef
  sale_value : JsVal := .undef
  sales_value : JsVal := .undef
  total_profit : JsVal := .undef
  profit : JsVal := .undef
  pnl : JsVal := .undef
deriving DecidableEq, Repr

/-! ### Association-list model of JS `Map` (insertion ordered) -/

/-- `map.set(k, v)`: replace in place if the key exists, else append. -/
def assocSet {β : Type} (m : List (String × β)) (k : String) (v : β) :
    List (String × β) :=
  if m.any (fun p => p.1 == k) then
    m.map (fun p => if p.1 == k then (k, v) else p)
  else
    m ++ [(k, v)]

/-- `map.get(k)`: the value of the first (unique) pair carrying key `k`. -/
def assocGet? {β : Type} (m : List (String × β)) (k : String) : Option β :=
  match m with
  | [] => none
  | p :: m => if p.1 == k then some p.2 else assocGet? m k

/-- Update the value stored at key `k`, if present. -/
def assocUpdate {β : Type} (m : List (String × β)) (k : String) (f : β → β) :
    List (String × β) :=
  m.map (fun p => if p.1 == k then (k, f p.2) else p)

/-- `buildCustomerMap` (source `part_001` lines 5–13): id → customer lookup,
skipping records without a truthy id. -/
def buildCustomerMap (customers : Option (List (Option Customer))) :
    List (String × Customer) :=
  (customers.getD []).foldl
    (fun m oc =>
      match oc with
      | none => m
      | some c =>
        match c.id with
        | some cid => assocSet m cid c
        | none => m)
    []

/-- `buildTransactionMap` (source `part_001` lines 15–26): group transactions
by `customer_id || "__unknown"`, preserving input order within each group. -/
def buildTransactionMap (transactions : Option (List (Option Txn))) :
    List (String × List Txn) :=
  (transactions.getD []).foldl
    (fun m ot =>
      match ot with
      | none => m
      | some t =>
        let cid := t.customer_id.getD "__unknown"
        if m.any (fun p => p.1 == cid) then
          assocUpdate m cid (fun l => l ++ [t])
        else
          m ++ [(cid, [t])])
    []

/-! ### Collection breakdown (source `part_001` lines 42–181) -/

structure CollectionPayment where
  id : String
  amount : ℚ
  createdAt : Option Int
  teaName : Option String
  quantity : Option ℚ
  type : String
  saleAmount : Option ℚ
  balance : Option ℚ
  status : String
deriving DecidableEq, Repr

structure CollectionEntry where
  customerId : String
  customerName : String
  customer : Option Customer
  totalPaid : ℚ
  payments : List CollectionPayment
deriving DecidableEq, Repr

structure CollectionSummary where
  customersCount : Nat
  paymentCount : Nat
  totalAmount : ℚ
deriving DecidableEq, Repr

structure CollectionBreakdown where
  details : List CollectionEntry
  summary : CollectionSummary
deriving DecidableEq, Repr

/-- `toLowerCase`, computed character-wise over the character list (the
byte-position recursion of `String.map` does not reduce definitionally). -/
def jsToLower (s : String) : String := String.mk (s.toList.map Char.toLower)

/-- `deriveStatus` (source `part_001` lines 78–110).  `saleAmount` is a JS
`number | null`. -/
def deriveStatus (type : String) (saleAmount : Option JsNum)
    (amountPaid : JsNum) (balance : JsNum) : String :=
  let normalizedType := jsToLower type
  let normalizedBalance : ℚ := balance.finiteOrZero
  let normalizedPaid : ℚ := amountPaid.finiteOrZero
  -- `Number.isFinite(saleAmount ?? NaN) ? saleAmount ?? 0 : 0`
  let normalizedSale : ℚ := (saleAmount.bind JsNum.toFinite?).getD 0
  if normalizedBalance ≤ 0 then "full paid"
  else if normalizedType = "payment" then
    (if 0 < normalizedBalance then "partial paid" else "full paid")
  else if normalizedSale = 0 ∧ normalizedPaid = 0 then "partial left"
  else if 0 < normalizedPaid ∧ normalizedPaid < normalizedSale then "partial paid"
  else if normalizedSale ≤ normalizedPaid ∧ 0 < normalizedSale then "full paid"
  else "partial left"

/-- The lower-cased type of a transaction: `String(txn.type || "").toLowerCase()`. -/
def txnType (t : Txn) : String := jsToLower (t.type.getD "")

/-- The amount collected by a transaction (source `part_001` line 116):
`amount` for payment entries, `paid_amount` otherwise. -/
def txnAmountPaid (t : Txn) : JsNum :=
  if txnType t = "payment" then t.amount.orZero else t.paid_amount.orZero

/-- The finite positive collected amount of a qualifying transaction, `none`
when the entry is skipped (source `part_001` line 119). -/
def qualifyingPaid (t : Txn) : Option ℚ :=
  match (txnAmountPaid t).toFinite? with
  | none => none
  | some p => if p ≤ 0 then none else some p

/-- Sale amount as resolved for the collection breakdown (source `part_001`
line 117). -/
def txnSaleAmount (t : Txn) : JsNum :=
  if txnType t = "payment" then
    (t.sale_amount.nullish (t.related_sale_amount.nullish (.num 0))).toNum
  else t.amount.orZero

/-- Balance as resolved for the collection breakdown (source `part_001`
line 118). -/
def txnBalance (t : Txn) : JsNum :=
  if (t.balance.toNum).isFinite then t.balance.toNum
  else if txnType t = "payment" then
    (t.remaining_balance.nullish (t.balance_after.nullish (.num 0))).toNum
  else (t.amount.orZero).sub (t.paid_amount.orZero)

/-- Display-name resolution for a collection entry (source `part_001`
lines 123–128 and 141–146). -/
def collectionName (customer : Option Customer) (t : Txn) (dflt : String) :
    String :=
  (((customer.bind Customer.full_name).orElse
      (fun _ => customer.bind Customer.shop_name)).orElse
    (fun _ => t.customer_name)).orElse (fun _ => t.customer) |>.getD dflt

/-- The fresh entry created at a customer's first qualifying transaction
(source `part_001` lines 121–136). -/
def collectionNewEntry (customersById : List (String × Customer))
    (customerId : String) (t : Txn) : CollectionEntry :=
  let customer := assocGet? customersById customerId
  let dflt := if customerId = "__unknown" then "Unknown customer" else "Customer"
  { customerId := customerId
    customer := customer
    customerName := collectionName customer t dflt
    totalPaid := 0
    payments := [] }

/-- The update applied to the matching entry (source `part_001`
lines 138–158). -/
def collectionUpdateEntry (customersById : List (String × Customer))
    (customerId : String) (t : Txn) (p : ℚ) (e : CollectionEntry) :
    CollectionEntry :=
  let customer := e.customer.orElse (fun _ => assocGet? customersById customerId)
  let pay : CollectionPayment :=
    { id := t.id.getD (customerId ++ "-" ++ toString e.payments.length)
      amount := p
      createdAt := t.created_at
      teaName := (t.tea_name.orElse (fun _ => t.batch_name)).orElse
        (fun _ => t.tea)
      quantity := (t.quantity.toNum).toFinite?
      type := txnType t
      saleAmount :=
        match (txnSaleAmount t).toFinite? with
        | some s => if 0 < s then some s else none
        | none => none
      balance := (txnBalance t).toFinite?
      status := deriveStatus (txnType t)
        (if (txnSaleAmount t).isFinite then some (txnSaleAmount t) else none)
        (.num p)
        (if (txnBalance t).isFinite then txnBalance t else .num 0) }
  { e with
      customer := customer
      customerName := collectionName customer t e.customerName
      totalPaid := e.totalPaid + p
      payments := e.payments ++ [pay] }

/-- One step of the grouping loop of `buildCollectionBreakdown` (source
`part_001` lines 112–159). -/
def collectionStep (customersById : List (String × Customer))
    (acc : List CollectionEntry) (ot : Option Txn) : List CollectionEntry :=
  match ot with
  | none => acc
  | some t =>
    let customerId := t.customer_id.getD "__unknown"
    match qualifyingPaid t with
    | none => acc
    | some p =>
      let acc' :=
        if acc.any (fun e => e.customerId == customerId) then acc
        else acc ++ [collectionNewEntry customersById customerId t]
      acc'.map (fun e =>
        if e.customerId == customerId then
          collectionUpdateEntry customersById customerId t p e
        else e)

/-- The grouped entries in `Map` insertion order, with each customer's
payments sorted newest-first (source `part_001` lines 112–170): the state of
`details` immediately before the final `totalPaid` sort. -/
def collectionGroups (transactions : Option (List (Option Txn)))
    (customers : Option (List (Option Customer))) : List CollectionEntry :=
  let customersById := buildCustomerMap customers
  ((transactions.getD []).foldl (collectionStep customersById) []).map
    (fun e =>
      { e with payments := sortDescBy (fun p => p.createdAt.getD 0) e.payments })

/-- `buildCollectionBreakdown` (source `part_001` lines 71–181). -/
def buildCollectionBreakdown (transactions : Option (List (Option Txn)))
    (customers : Option (List (Option Customer))) : CollectionBreakdown :=
  let details := sortDescBy (fun e => e.totalPaid)
    (collectionGroups transactions customers)
  { details := details
    summary :=
      { customersCount := details.length
        paymentCount := (details.map (fun e => e.payments.length)).sum
        totalAmount := (details.map (fun e => e.totalPaid)).sum } }

/-! ### Outstanding breakdown (source `part_001` lines 183–238) -/

/-- Shape of one `perCustomer` value of the `TransactionSummaryResult`
imported from `lib/utils` (the aggregator of spec §4.2). -/
structure PerCustomerSummary where
  totalSales : JsVal := .undef
  totalCollections : JsVal := .undef
  outstanding : JsVal := .undef
  transactionCount : Nat := 0
deriving DecidableEq, Repr

structure TransactionTotals where
  totalSales : JsVal := .undef
  totalCollections : JsVal := .undef
  outstanding : JsVal := .undef
deriving DecidableEq, Repr

structure TransactionSummaryResult where
  perCustomer : Option (List (String × Option PerCustomerSummary)) := none
  totals : TransactionTotals := {}
deriving DecidableEq, Repr

structure OutstandingEntry where
  customerId : String
  customer : Option Customer
  customerName : String
  outstanding : JsNum
  phone : Option String
  nextDue : Option Int
  lastActivity : Option Int
deriving DecidableEq, Repr

/-- `Math.max(Number(summary?.outstanding || 0), 0)` (source `part_001`
line 203). -/
def outstandingOf (summary : Option PerCustomerSummary) : JsNum :=
  JsNum.max ((summary.elim JsVal.undef PerCustomerSummary.outstanding).orZero)
    (.num 0)

/-- `dueCandidates` predicate (source `part_001` lines 210–212):
`Number(txn.balance || 0) > 0 && Boolean(txn.due_date)`. -/
def isDueCandidate (t : Txn) : Bool :=
  (JsNum.lt (.num 0) (t.balance.orZero)) && t.due_date.isSome

/-- One mapped element of `buildOutstandingBreakdown` (source `part_001`
lines 202–235); `none` is the dropped (`null`) case. -/
def mkOutstandingEntry (customersById : List (String × Customer))
    (txnMap : List (String × List Txn))
    (pr : String × Option PerCustomerSummary) : Option OutstandingEntry :=
  let customerId := pr.1
  let outstanding := outstandingOf pr.2
  if ¬ outstanding.truthy then none
  else if customerId = "__unknown" then none
  else
    let customer := assocGet? customersById customerId
    let txns := (assocGet? txnMap customerId).getD []
    let fallbackTxn := txns.head?
    let dueCandidates := txns.filter isDueCandidate
    let nextDue := (sortAscBy (fun t => t.due_date.getD 0) dueCandidates).head?
    some
      { customerId := customerId
        customer := customer
        customerName :=
          ((((customer.bind Customer.full_name).orElse
              (fun _ => customer.bind Customer.shop_name)).orElse
            (fun _ => fallbackTxn.bind Txn.customer_name)).orElse
            (fun _ => fallbackTxn.bind Txn.customer)).getD "Customer"
        outstanding := outstanding
        phone :=
          ((customer.bind Customer.whatsapp_number).orElse
            (fun _ => customer.bind Customer.contact)).orElse
            (fun _ => fallbackTxn.bind Txn.customer_phone)
        nextDue := nextDue.bind Txn.due_date
        lastActivity :=
          if 0 < txns.length then txns.head?.bind Txn.created_at else none }

/-- `buildOutstandingBreakdown` (source `part_001` lines 193–238). -/
def buildOutstandingBreakdown (transactionSummary : TransactionSummaryResult)
    (transactions : Option (List (Option Txn)))
    (customers : Option (List (Option Customer))) : List OutstandingEntry :=
  let customersById := buildCustomerMap customers
  let txnMap := buildTransactionMap transactions
  sortDescBy (fun e => e.outstanding.sortKey)
    ((transactionSummary.perCustomer.getD []).filterMap
      (mkOutstandingEntry customersById txnMap))

/-! ### Inventory P&L breakdown (source `part_001` lines 240–428) -/

structure PnlBreakdownRow where
  id : String
  name : String
  soldQuantity : ℚ
  remainingQuantity : ℚ
  purchaseRate : ℚ
  avgSellRate : ℚ
  totalSaleValue : ℚ
  profitPerKg : Option ℚ
  pnl : ℚ
deriving DecidableEq, Repr

/-- A Tier-1 row before the `soldAt` field is stripped. -/
structure PnlSaleRow where
  row : PnlBreakdownRow
  soldAt : Option Int
deriving DecidableEq, Repr

structure PnlTotals where
  pnl : ℚ
  soldQuantity : ℚ
  saleValue : ℚ
deriving DecidableEq, Repr

structure PnlBreakdown where
  rows : List PnlBreakdownRow
  totals : PnlTotals
deriving DecidableEq, Repr

/-- `batch?.batch_id || batch?.id` (source `part_001` line 265). -/
def batchMapKey (ob : Option Batch) : Option String :=
  ob.bind (fun b => b.batch_id.orElse (fun _ => b.id))

/-- The batch lookup map (source `part_001` lines 263–268). -/
def buildBatchMap (batchPnl : Option (List (Option Batch))) :
    List (String × Batch) :=
  (batchPnl.getD []).foldl
    (fun m ob =>
      match batchMapKey ob, ob with
      | some k, some b => assocSet m k b
      | _, _ => m)
    []

/-- `batchInfo?.field` where `batchInfo` may be null. -/
def batchField (ob : Option Batch) (f : Batch → JsVal) : JsVal :=
  match ob with
  | none => .undef
  | some b => f b

/-- One Tier-1 sale row (source `part_001` lines 276–335); `index` is the
position in the filtered non-payment list. -/
def tier1Row (batchMap : List (String × Batch)) (index : Nat) (t : Txn) :
    PnlSaleRow :=
  let batchInfo :=
    match t.batch_id with
    | some bid => assocGet? batchMap bid
    | none => none
  let quantity := (pickFirstNumber [t.quantity, t.qty, t.sold_quantity]).getD 0
  let saleAmount :=
    (pickFirstNumber [t.amount, t.sale_amount, t.total_amount]).getD 0
  let saleRateFromTxn :=
    pickFirstNumber [t.sale_rate, t.price_per_kg, t.rate_per_kg]
  let saleRate : Option ℚ :=
    if 0 < quantity then some (saleAmount / quantity) else saleRateFromTxn
  let purchaseRate :=
    (pickFirstNumber [t.purchase_rate, batchField batchInfo Batch.purchase_rate,
      batchField batchInfo Batch.purchaseRate]).getD 0
  let remainingQuantity :=
    (pickFirstNumber [t.remaining_quantity,
      batchField batchInfo Batch.remaining_quantity,
      batchField batchInfo Batch.remainingQuantity]).getD 0
  let explicitProfit :=
    pickFirstNumber [t.profit, t.pnl, t.profit_amount, t.total_profit]
  let step1 : Option ℚ × ℚ :=
    if 0 < quantity then
      match explicitProfit with
      | some ep => (some (ep / quantity), ep)
      | none =>
        match saleRate with
        | some sr => (some (sr - purchaseRate), (sr - purchaseRate) * quantity)
        | none => (none, 0)
    else (none, explicitProfit.getD 0)
  let profitPerKg : Option ℚ :=
    match step1.1 with
    | some v => some v
    | none =>
      match saleRate with
      | some sr => some (sr - purchaseRate)
      | none => none
  let totalProfit : ℚ := step1.2
  -- `saleAmount || (saleRate !== null && quantity > 0 ? saleRate * quantity : 0)`
  let totalSaleValue : ℚ :=
    if saleAmount ≠ 0 then saleAmount
    else
      match saleRate with
      | some sr => if 0 < quantity then sr * quantity else 0
      | none => 0
  { row :=
      { id := t.id.getD ((t.batch_id.getD "sale") ++ "-" ++ toString index)
        name :=
          ((((t.tea_name.orElse (fun _ => t.batch_name)).orElse
              (fun _ => batchInfo.bind Batch.batch_name)).orElse
            (fun _ => batchInfo.bind Batch.name)).getD "Tea Sale")
        soldQuantity := quantity
        remainingQuantity := remainingQuantity
        purchaseRate := purchaseRate
        avgSellRate := saleRate.getD 0
        -- `Number.isFinite(totalSaleValue)` always holds for rationals
        totalSaleValue := totalSaleValue
        profitPerKg := profitPerKg
        pnl := totalProfit }
    soldAt := t.created_at }

/-- The surviving Tier-1 sale rows (source `part_001` lines 270–337):
non-payment transactions mapped to rows, keeping those with
`soldQuantity > 0 || pnl !== 0`. -/
def tier1Rows (batchPnl : Option (List (Option Batch)))
    (transactions : Option (List (Option Txn))) : List PnlSaleRow :=
  let batchMap := buildBatchMap batchPnl
  let nonPayments := (transactions.getD []).filterMap
    (fun ot =>
      match ot with
      | none => none
      | some t => if txnType t = "payment" then none else some t)
  (nonPayments.enum.map (fun p => tier1Row batchMap p.1 p.2)).filter
    (fun r => (0 < r.row.soldQuantity) || (r.row.pnl ≠ 0))

/-- One Tier-2 batch-aggregate row (source `part_001` lines 361–412).
On the Tier-2 path the source dereferences each batch record without a null
guard (a null element would throw); a null element is modelled as a record
with every field `undefined`.  No claim depends on that case. -/
def tier2Row (index : Nat) (ob : Option Batch) : PnlBreakdownRow :=
  let b := ob.getD {}
  let soldQuantity := (pickFirstNumber [b.sold_quantity, b.soldQuantity]).getD 0
  let remainingQuantity :=
    (pickFirstNumber [b.remaining_quantity, b.remainingQuantity]).getD 0
  let purchaseRate := (pickFirstNumber [b.purchase_rate, b.purchaseRate]).getD 0
  let avgSellRate0 := pickFirstNumber
    [b.avg_sale_rate, b.avg_sell_rate, b.avg_sale_price, b.avg_selling_rate]
  let explicitSaleValue := pickFirstNumber
    [b.total_sale_value, b.total_sales_amount, b.total_sales_value,
      b.sales_amount, b.sale_value, b.sales_value]
  let pnlValue := (pickFirstNumber [b.pnl, b.total_profit, b.profit]).getD 0
  let avgSellRate : Option ℚ :=
    match avgSellRate0, explicitSaleValue with
    | none, some esv => if 0 < soldQuantity then some (esv / soldQuantity) else none
    | some r, some esv =>
      if r = 0 ∧ 0 < soldQuantity then some (esv / soldQuantity) else some r
    | r, none => r
  let totalSaleValue : ℚ :=
    match explicitSaleValue with
    | some v => v
    | none =>
      match avgSellRate with
      | some r => if 0 < soldQuantity then r * soldQuantity else 0
      | none => 0
  -- `Number.isFinite(pnlValue)` always holds for rationals, so the
  -- `avgSellRate - purchaseRate` alternative is unreachable when
  -- `soldQuantity > 0`
  let profitPerKg : Option ℚ :=
    if 0 < soldQuantity then some (pnlValue / soldQuantity)
    else
      match avgSellRate with
      | some r => some (r - purchaseRate)
      | none => none
  { id := (b.batch_id.orElse (fun _ => b.id)).getD (toString index)
    name := (b.batch_name.orElse (fun _ => b.name)).getD
      ("Batch " ++ toString (index + 1))
    soldQuantity := soldQuantity
    remainingQuantity := remainingQuantity
    purchaseRate := purchaseRate
    avgSellRate := avgSellRate.getD 0
    totalSaleValue := totalSaleValue
    profitPerKg := profitPerKg
    pnl := pnlValue }

/-- The totals accumulator (source `part_001` lines 346–354 and 417–425). -/
def pnlTotalsOf (pnls qtys values : List ℚ) : PnlTotals :=
  { pnl := pnls.sum, soldQuantity := qtys.sum, saleValue := values.sum }

/-- `buildPnlBreakdown` (source `part_001` lines 262–428). -/
def buildPnlBreakdown (batchPnl : Option (List (Option Batch)))
    (transactions : Option (List (Option Txn))) : PnlBreakdown :=
  let saleRows := tier1Rows batchPnl transactions
  if saleRows.isEmpty then
    let rows := sortDescBy (fun r => r.pnl)
      ((batchPnl.getD []).enum.map (fun p => tier2Row p.1 p.2))
    { rows := rows
      totals := rows.foldl
        (fun acc r =>
          { pnl := acc.pnl + r.pnl
            soldQuantity := acc.soldQuantity + r.soldQuantity
            saleValue := acc.saleValue + r.totalSaleValue })
        { pnl := 0, soldQuantity := 0, saleValue := 0 } }
  else
    let sorted := sortDescBy (fun r => r.soldAt.getD 0) saleRows
    { rows := sorted.map PnlSaleRow.row
      totals := sorted.foldl
        (fun acc r =>
          { pnl := acc.pnl + r.row.pnl
            soldQuantity := acc.soldQuantity + r.row.soldQuantity
            saleValue := acc.saleValue + r.row.totalSaleValue })
        { pnl := 0, soldQuantity := 0, saleValue := 0 } }

/-! ### Report assembler: customer summary rows (source `part_005`
lines 778–846)

`targetCustomers` / `targetTransactions` are the pre-filtered inputs of
`buildReportData` (every transaction has a truthy `customer_id` after the
upstream filter on line 652–654, and customer records are dereferenced
directly, hence non-null element types). -/

structure SummaryAcc where
  totalQuantity : JsNum := .num 0
  totalAmount : JsNum := .num 0
  totalPaid : JsNum := .num 0
  balance : JsNum := .num 0
deriving DecidableEq, Repr

/-- The per-transaction accumulation (source `part_005` lines 792–814). -/
def summaryAddTxn (e : SummaryAcc) (t : Txn) : SummaryAcc :=
  let type := jsToLower (t.type.getD "")
  let amount := t.amount.nullishZeroNum
  let paidAmount := t.paid_amount.nullishZeroNum
  let balance := t.balance.nullishZeroNum
  if type = "payment" then
    { e with
        totalPaid := e.totalPaid.add ((amount.jsOr paidAmount).abs)
        balance := e.balance.add balance }
  else
    { e with
        totalQuantity := e.totalQuantity.add t.quantity.nullishZeroNum
        totalAmount := e.totalAmount.add amount
        totalPaid := e.totalPaid.add paidAmount
        balance := e.balance.add balance }

/-- The `summaryMap` of `buildReportData` (source `part_005` lines 778–814).
A customer without an id would be keyed under `undefined`, a key no
transaction can reach (`!customerId` skips); such customers are therefore
not entered, observationally the same as holding the zero record. -/
def summaryInitStep (m : List (String × SummaryAcc)) (c : Customer) :
    List (String × SummaryAcc) :=
  match c.id with
  | some cid => assocSet m cid {}
  | none => m

def summaryTxnStep (m : List (String × SummaryAcc)) (t : Txn) :
    List (String × SummaryAcc) :=
  match t.customer_id with
  | none => m
  | some cid =>
    if m.any (fun p => p.1 == cid) then
      assocUpdate m cid (fun e => summaryAddTxn e t)
    else m

def buildSummaryMap (targetCustomers : List Customer)
    (targetTransactions : List Txn) : List (String × SummaryAcc) :=
  targetTransactions.foldl summaryTxnStep
    (targetCustomers.foldl summaryInitStep [])

structure CustomerSummaryRow where
  customerId : Option String
  customerName : String
  shopName : String
  totalQuantity : JsNum
  averageRate : JsNum
  totalBill : JsNum
  totalPaid : JsNum
  outstanding : JsNum
deriving DecidableEq, Repr

/-- One customer-summary row (source `part_005` lines 816–842). -/
def mkCustomerSummaryRow (summaryMap : List (String × SummaryAcc))
    (c : Customer) : CustomerSummaryRow :=
  let entry := (c.id.bind (assocGet? summaryMap)).getD {}
  let outstandingFromTransactions := JsNum.max entry.balance (.num 0)
  let fallbackOutstanding := c.outstanding_balance.nullishZeroNum
  let outstanding := JsNum.max outstandingFromTransactions fallbackOutstanding
  let averageRate :=
    if JsNum.lt (.num 0) entry.totalQuantity then
      entry.totalAmount.div entry.totalQuantity
    else .num 0
  { customerId := c.id
    customerName := (c.full_name.orElse (fun _ => c.name)).getD "Customer"
    shopName := (c.shop_name.orElse (fun _ => c.shop)).getD "—"
    totalQuantity := entry.totalQuantity
    averageRate := averageRate
    totalBill := entry.totalAmount
    totalPaid := entry.totalPaid
    outstanding := outstanding }

/-- `customerSummaryRows` (source `part_005` lines 816–846); the final
`localeCompare` name sort is modelled by the lexicographic string order. -/
def buildCustomerSummaryRows (targetCustomers : List Customer)
    (targetTransactions : List Txn) : List CustomerSummaryRow :=
  let summaryMap := buildSummaryMap targetCustomers targetTransactions
  sortAscBy (fun r => r.customerName)
    (targetCustomers.map (mkCustomerSummaryRow summaryMap))

/-! ### Report assembler: ledger rows (source `part_005` lines 848–914) -/

/-- Semantic content of a ledger row's `statusLabel` string
(`Payment Received ₹…` / `Partial – Due ₹…` / `Full Payment`); the display
formatting of the embedded amount is not modelled. -/
inductive LedgerStatus where
  | paymentReceived (credit : JsNum)
  | partialDue (outstanding : JsNum)
  | fullPayment
deriving DecidableEq, Repr

structure LedgerRow where
  customerId : Option String
  customerName : String
  shopName : String
  /-- `none` stands for the `new Date().toISOString()` wall-clock fallback. -/
  date : Option Int
  teaName : String
  typeLabel : String
  quantity : Option JsNum
  rate : Option JsNum
  debit : JsNum
  credit : JsNum
  totalAmount : JsNum
  paidAmount : JsNum
  balance : JsNum
  runningBalance : JsNum
  statusLabel : LedgerStatus
  dueDate : Option Int
deriving DecidableEq, Repr

/-- One ledger row at the given running balance (source `part_005`
lines 863–906). -/
def ledgerRowFor (c : Customer) (running : JsNum) (t : Txn) : LedgerRow :=
  let type := jsToLower (t.type.getD "")
  let isPayment := type = "payment"
  let amount := t.amount.nullishZeroNum
  let paidAmount := t.paid_amount.nullishZeroNum
  let quantity : Option JsNum :=
    if ¬ isPayment then some t.quantity.nullishZeroNum else none
  let debit := if isPayment then .num 0 else amount
  let credit :=
    if isPayment then (amount.jsOr paidAmount).abs
    else JsNum.max paidAmount (.num 0)
  -- `quantity && quantity !== 0 ? amount / quantity : null`
  let rate : Option JsNum :=
    match quantity with
    | some q => if q.truthy ∧ q ≠ .num 0 then some (amount.div q) else none
    | none => none
  let perTxnBalance := JsNum.max t.balance.nullishZeroNum (.num 0)
  let nextRunning := running.add (debit.sub credit)
  let positiveOutstanding := JsNum.max nextRunning (.num 0)
  let statusLabel : LedgerStatus :=
    if isPayment then .paymentReceived credit
    else if JsNum.lt (.num 0) positiveOutstanding then
      .partialDue positiveOutstanding
    else .fullPayment
  { customerId := c.id
    customerName := (c.full_name.orElse (fun _ => c.name)).getD "Customer"
    shopName := (c.shop_name.orElse (fun _ => c.shop)).getD "—"
    date := t.created_at
    teaName := t.tea_name.getD "—"
    typeLabel :=
      if isPayment then "Payment"
      else if type = "partial" then "Sale (Partial)"
      else "Sale"
    quantity := quantity
    rate := rate
    debit := debit
    credit := credit
    totalAmount := amount
    paidAmount := credit
    balance := perTxnBalance
    runningBalance := nextRunning
    statusLabel := statusLabel
    dueDate := t.due_date }

/-- The running-balance replay over one customer's chronologically sorted
transactions (source `part_005` lines 860–910). -/
def ledgerReplay (c : Customer) : JsNum → List Txn → List LedgerRow
  | _, [] => []
  | running, t :: ts =>
    let row := ledgerRowFor c running t
    row :: ledgerReplay c row.runningBalance ts

/-- The running balance carried out of a replay segment (the value
`runningBalance` holds after the rows of that segment are emitted). -/
def ledgerRunning (c : Customer) : JsNum → List Txn → JsNum
  | z, [] => z
  | z, t :: ts => ledgerRunning c (ledgerRowFor c z t).runningBalance ts

/-- `ledgerRows` (source `part_005` lines 848–914): per customer, filter that
customer's transactions, sort ascending by `created_at`, replay the running
balance from zero. -/
def buildLedgerRows (targetCustomers : List Customer)
    (targetTransactions : List Txn) : List LedgerRow :=
  (targetCustomers.map (fun c =>
    ledgerReplay c (.num 0)
      (sortAscBy (fun t => t.created_at.getD 0)
        (targetTransactions.filter (fun t => t.customer_id == c.id))))).flatten

/-! ### Transaction summary aggregator -/

/-- `txn.customer_id || "__unknown"`. -/
def resolvedCid (t : Txn) : String := t.customer_id.getD "__unknown"

structure SpecSummaryAcc where
  totalSales : ℚ := 0
  totalCollections : ℚ := 0
  balance : ℚ := 0
  transactionCount : Nat := 0
deriving DecidableEq, Repr

/-- Modelled from the spec: one accumulation step of
`computeTransactionSummary` (§4.2) — classify by lowercased
`type == "payment"`, accumulate `totalCollections` (payment amount) or
`totalSales` (non-payment amount), and sum `balance` (defaulting to 0 when
absent); entries with a non-finite amount contribute 0. -/
def specAddTxn (acc : SpecSummaryAcc) (t : Txn) : SpecSummaryAcc :=
  let amount := (toFiniteNumber t.amount).getD 0
  let bal := (toFiniteNumber t.balance).getD 0
  if txnType t = "payment" then
    { acc with
        totalCollections := acc.totalCollections + amount
        balance := acc.balance + bal
        transactionCount := acc.transactionCount + 1 }
  else
    { acc with
        totalSales := acc.totalSales + amount
        balance := acc.balance + bal
        transactionCount := acc.transactionCount + 1 }

/-- Modelled from the spec: one bucket step of the aggregator of §4.2 — the
entry's contribution is accumulated under its resolved customer id, creating
the bucket at first encounter. -/
def specSummaryStep (m : List (String × SpecSummaryAcc)) (t : Txn) :
    List (String × SpecSummaryAcc) :=
  let cid := resolvedCid t
  if m.any (fun p => p.1 == cid) then
    assocUpdate m cid (fun a => specAddTxn a t)
  else m ++ [(cid, specAddTxn {} t)]

/-- Modelled from the spec: `computeTransactionSummary` is exported from the
repository's `lib/utils` module, which is not present under `src/` (only its
callers are).  Per §4.2 / §3: iterate the entries once, resolving the
customer id with default bucket `"__unknown"`; accumulate per-customer
totals; the per-customer `outstanding` is the running balance sum clamped to
`≥ 0` at read time; `totals` sums the per-customer values. -/
def computeTransactionSummary (transactions : Option (List (Option Txn))) :
    TransactionSummaryResult :=
  let accs : List (String × SpecSummaryAcc) :=
    ((transactions.getD []).filterMap id).foldl specSummaryStep []
  { perCustomer := some (accs.map (fun p =>
      (p.1, some
        { totalSales := .num p.2.totalSales
          totalCollections := .num p.2.totalCollections
          outstanding := .num (max p.2.balance 0)
          transactionCount := p.2.transactionCount })))
    totals :=
      { totalSales := .num ((accs.map (fun p => p.2.totalSales)).sum)
        totalCollections := .num ((accs.map (fun p => p.2.totalCollections)).sum)
        outstanding := .num ((accs.map (fun p => max p.2.balance 0)).sum) } }

/-! ### Phone normalization (source `part_001` lines 485–505)

JS strings are modelled as lists of characters. -/

/-- An approximation of the JS whitespace class used by `String.trim`. -/
def isJsSpace (c : Char) : Bool :=
  c = ' ' ∨ c = '\t' ∨ c = '\n' ∨ c = '\r'

/-- `value.trim()`. -/
def trimChars (l : List Char) : List Char :=
  ((l.dropWhile isJsSpace).reverse.dropWhile isJsSpace).reverse

/-- The injected default country code `"91"` (source `part_001` line 468). -/
def defaultCountryCode : List Char := ['9', '1']

/-- `normalizePhoneNumber` (source `part_001` lines 485–505). -/
def normalizePhoneNumber (value : List Char) : Option (List Char) :=
  let trimmed := trimChars value
  if trimmed.length = 0 then none
  else
    let digits0 := trimmed.filter Char.isDigit
    if digits0.length = 0 then none
    else
      let digits1 := digits0.dropWhile (fun c => c = '0')
      let digits2 :=
        if digits1.length = 10 then defaultCountryCode ++ digits1 else digits1
      if digits2.length < 8 ∨ 15 < digits2.length then none
      else some digits2

/-! ### Small list lemmas -/

theorem mem_of_mem_dropWhile {α : Type} (p : α → Bool) (l : List α) (a : α)
    (h : a ∈ l.dropWhile p) : a ∈ l := by
  induction l with
  | nil => simp [List.dropWhile] at h
  | cons b bs ih =>
    rw [List.dropWhile_cons] at h
    by_cases hb : p b = true
    · rw [if_pos hb] at h
      exact List.mem_cons_of_mem b (ih h)
    · rw [if_neg hb] at h
      exact h

theorem dropWhile_eq_self_of_head {α : Type} (p : α → Bool) (l : List α)
    (h : ∀ a, l.head? = some a → p a = false) : l.dropWhile p = l := by
  cases l with
  | nil => rfl
  | cons a as => rw [List.dropWhile_cons, if_neg (by simp [h a rfl])]

theorem dropWhile_head_false {α : Type} (p : α → Bool) (l : List α) :
    ∀ a, (l.dropWhile p).head? = some a → p a = false := by
  induction l with
  | nil => intro a ha; simp [List.dropWhile] at ha
  | cons b bs ih =>
    intro a ha
    rw [List.dropWhile_cons] at ha
    by_cases hb : p b = true
    · rw [if_pos hb] at ha
      exact ih a ha
    · rw [if_neg hb] at ha
      simp only [List.head?_cons, Option.some.injEq] at ha
      subst ha
      simpa using hb

theorem dropWhile_eq_self_of_all {α : Type} (p : α → Bool) (l : List α)
    (h : ∀ a ∈ l, p a = false) : l.dropWhile p = l := by
  cases l with
  | nil => rfl
  | cons a as => rw [List.dropWhile_cons, if_neg (by simp [h a (by simp)])]

/-! ### C5 — `deriveStatus` short-circuits on non-positive balance -/

/-- C5: for every type string, sale amount and paid amount, if the
finite-normalized balance argument is `≤ 0` then `deriveStatus` returns
`"full paid"`, regardless of the other arguments. -/
theorem deriveStatus_full_paid_of_balance_nonpos (type : String)
    (saleAmount : Option JsNum) (amountPaid balance : JsNum)
    (h : balance.finiteOrZero ≤ 0) :
    deriveStatus type saleAmount amountPaid balance = "full paid" := by
  simp [deriveStatus, h]

/-- C5 witness: a payment-type entry with balance `0` is classified
`"full paid"`. -/
theorem deriveStatus_full_paid_of_balance_nonpos_witness :
    (JsNum.num 0).finiteOrZero ≤ 0 ∧
      deriveStatus "payment" (some (.num 120)) (.num 5) (.num 0) = "full paid" :=
  ⟨by decide,
    deriveStatus_full_paid_of_balance_nonpos "payment" (some (.num 120))
      (.num 5) (.num 0) (by decide)⟩

/-! ### C10 — builders tolerate null/undefined collection inputs -/

/-- C10: with null/undefined in place of their collection arguments, the
three breakdown builders return empty results — empty `details` with an
all-zero summary, an empty outstanding list, and empty `rows` with all-zero
totals. -/
theorem builders_tolerate_null_inputs :
    buildCollectionBreakdown none none =
      { details := []
        summary := { customersCount := 0, paymentCount := 0, totalAmount := 0 } }
    ∧ buildOutstandingBreakdown { perCustomer := none } none none = []
    ∧ buildPnlBreakdown none none =
      { rows := [], totals := { pnl := 0, soldQuantity := 0, saleValue := 0 } } :=
  ⟨rfl, rfl, rfl⟩

/-! ### C9 — `normalizePhoneNumber` is idempotent -/

theorem isJsSpace_eq_false_of_isDigit (c : Char) (h : c.isDigit = true) :
    isJsSpace c = false := by
  simp only [isJsSpace, decide_eq_false_iff_not]
  rintro (rfl | rfl | rfl | rfl) <;> simp at h

theorem trimChars_eq_self (l : List Char) (h : ∀ c ∈ l, isJsSpace c = false) :
    trimChars l = l := by
  unfold trimChars
  rw [dropWhile_eq_self_of_all _ _ h,
    dropWhile_eq_self_of_all _ _ (fun a ha => h a (List.mem_reverse.mp ha)),
    List.reverse_reverse]

/-- A normalized phone number evaluates to itself: it is all digits, has no
leading zero, and its length is in `[8, 15] \ {10}`. -/
theorem normalizePhoneNumber_fixed (d : List Char)
    (hdig : ∀ c ∈ d, c.isDigit = true)
    (hhead : ∀ a, d.head? = some a → (a = '0') = False)
    (hne : d.length ≠ 10) (h8 : 8 ≤ d.length) (h15 : d.length ≤ 15) :
    normalizePhoneNumber d = some d := by
  have h0 : ¬ (d.length = 0) := by omega
  have hfilter : d.filter Char.isDigit = d := List.filter_eq_self.mpr hdig
  have htrim : trimChars d = d :=
    trimChars_eq_self d (fun c hc => isJsSpace_eq_false_of_isDigit c (hdig c hc))
  have hdrop : d.dropWhile (fun c => c = '0') = d := by
    apply dropWhile_eq_self_of_head
    intro a ha
    simpa using hhead a ha
  have hrange : ¬ (d.length < 8 ∨ 15 < d.length) := by omega
  simp only [normalizePhoneNumber, htrim, h0, if_false, hfilter, hdrop, hne,
    hrange, if_true]

/-- C9: `normalizePhoneNumber` is idempotent — whenever it returns a
non-null result `y`, applying it to `y` returns `y` again. -/
theorem normalizePhoneNumber_idempotent (x y : List Char)
    (h : normalizePhoneNumber x = some y) :
    normalizePhoneNumber y = some y := by
  simp only [normalizePhoneNumber] at h
  set dw := ((trimChars x).filter Char.isDigit).dropWhile (fun c => c = '0')
    with hdw
  have hdwdig : ∀ c ∈ dw, c.isDigit = true := by
    intro c hc
    exact List.of_mem_filter (mem_of_mem_dropWhile _ _ c hc)
  have hdwhead : ∀ a, dw.head? = some a → (a = '0') = False := by
    intro a ha
    have := dropWhile_head_false (fun c => c = '0')
      ((trimChars x).filter Char.isDigit) a ha
    simpa using this
  split at h
  · exact absurd h (by simp)
  split at h
  · exact absurd h (by simp)
  split at h
  · -- ten digits after zero-stripping: the country code is prepended
    rename_i hL
    split at h
    · exact absurd h (by simp)
    have hy := Option.some.inj h
    subst hy
    apply normalizePhoneNumber_fixed
    · intro c hc
      rcases List.mem_append.mp hc with hc | hc
      · simp only [defaultCountryCode, List.mem_cons, List.not_mem_nil,
          or_false] at hc
        rcases hc with rfl | rfl <;> decide
      · exact hdwdig c hc
    · intro a ha
      simp only [defaultCountryCode, List.cons_append, List.head?_cons,
        Option.some.injEq] at ha
      subst ha
      simp
    · simp [defaultCountryCode, hL]
    · simp [defaultCountryCode, hL]
    · simp [defaultCountryCode, hL]
  · rename_i hL
    split at h
    · exact absurd h (by simp)
    rename_i hrange
    have hy := Option.some.inj h
    subst hy
    push_neg at hrange
    exact normalizePhoneNumber_fixed dw hdwdig hdwhead hL hrange.1 hrange.2

/-- C9 witness: a ten-digit local number normalizes to its `91`-prefixed
form, which is a fixed point. -/
theorem normalizePhoneNumber_idempotent_witness :
    normalizePhoneNumber ("9876543210".toList) =
        some ("919876543210".toList)
      ∧ normalizePhoneNumber ("919876543210".toList) =
        some ("919876543210".toList) :=
  ⟨by decide,
    normalizePhoneNumber_idempotent ("9876543210".toList)
      ("919876543210".toList) (by decide)⟩

/-! ### C7 / C8 — collection breakdown lemmas -/

theorem qualifyingPaid_pos (t : Txn) (p : ℚ) (h : qualifyingPaid t = some p) :
    0 < p := by
  unfold qualifyingPaid at h
  split at h
  · simp at h
  · split at h
    · simp at h
    · rename_i hq
      obtain rfl := Option.some.inj h
      exact lt_of_not_le hq

theorem collectionStep_skip (cust : List (String × Customer))
    (acc : List CollectionEntry) (t : Txn) (h : qualifyingPaid t = none) :
    collectionStep cust acc (some t) = acc := by
  simp [collectionStep, h]

/-- An entry is well formed when it carries at least one payment, every
payment amount is positive, and the accumulated total is positive. -/
def collectionEntryOk (e : CollectionEntry) : Prop :=
  e.payments ≠ [] ∧ (∀ p ∈ e.payments, 0 < p.amount) ∧ 0 < e.totalPaid

theorem collectionUpdateEntry_ok (cust : List (String × Customer))
    (cid : String) (t : Txn) (p : ℚ) (hp : 0 < p) (e : CollectionEntry)
    (he : collectionEntryOk e ∨ (e.payments = [] ∧ e.totalPaid = 0)) :
    collectionEntryOk (collectionUpdateEntry cust cid t p e) := by
  refine ⟨by simp [collectionUpdateEntry], ?_, ?_⟩
  · intro q hq
    simp only [collectionUpdateEntry, List.mem_append, List.mem_singleton] at hq
    rcases hq with hq | rfl
    · rcases he with he | he
      · exact he.2.1 q hq
      · rw [he.1] at hq; simp at hq
    · exact hp
  · simp only [collectionUpdateEntry]
    rcases he with he | he
    · exact add_pos he.2.2 hp
    · rw [he.2]; simpa using hp

theorem collectionStep_ok (cust : List (String × Customer))
    (acc : List CollectionEntry) (ot : Option Txn)
    (hacc : ∀ e ∈ acc, collectionEntryOk e) :
    ∀ e ∈ collectionStep cust acc ot, collectionEntryOk e := by
  intro e he
  cases ot with
  | none => exact hacc e he
  | some t =>
    cases hq : qualifyingPaid t with
    | none => rw [collectionStep_skip cust acc t hq] at he; exact hacc e he
    | some p =>
      simp only [collectionStep, hq] at he
      have hp := qualifyingPaid_pos t p hq
      simp only [List.mem_map] at he
      obtain ⟨e', he', rfl⟩ := he
      have he'' : e' ∈ acc ∨ e' = collectionNewEntry cust
          (t.customer_id.getD "__unknown") t := by
        by_cases hany :
            (acc.any (fun e => e.customerId == t.customer_id.getD "__unknown"))
              = true
        · rw [if_pos hany] at he'
          exact Or.inl he'
        · rw [if_neg hany] at he'
          rcases List.mem_append.mp he' with h1 | h1
          · exact Or.inl h1
          · exact Or.inr (List.mem_singleton.mp h1)
      by_cases hcid :
          (e'.customerId == t.customer_id.getD "__unknown") = true
      · rw [if_pos hcid]
        apply collectionUpdateEntry_ok _ _ _ _ hp
        rcases he'' with h1 | rfl
        · exact Or.inl (hacc e' h1)
        · exact Or.inr ⟨rfl, rfl⟩
      · rw [if_neg hcid]
        rcases he'' with h1 | rfl
        · exact hacc e' h1
        · exact absurd (by simp [collectionNewEntry]) hcid

theorem collectionFold_ok (cust : List (String × Customer))
    (l : List (Option Txn)) (acc : List CollectionEntry)
    (hacc : ∀ e ∈ acc, collectionEntryOk e) :
    ∀ e ∈ l.foldl (collectionStep cust) acc, collectionEntryOk e := by
  induction l generalizing acc with
  | nil => exact hacc
  | cons ot l ih =>
    rw [List.foldl_cons]
    exact ih _ (collectionStep_ok cust acc ot hacc)

theorem collectionGroups_ok (T : Option (List (Option Txn)))
    (C : Option (List (Option Customer))) :
    ∀ e ∈ collectionGroups T C, collectionEntryOk e := by
  intro e he
  unfold collectionGroups at he
  simp only [List.mem_map] at he
  obtain ⟨e', he', rfl⟩ := he
  have hok := collectionFold_ok (buildCustomerMap C) (T.getD []) []
    (by intro e h; simp at h) e' he'
  have hperm := sortDescBy_perm (fun p => p.createdAt.getD 0) e'.payments
  refine ⟨?_, ?_, hok.2.2⟩
  · intro hnil
    simp only at hnil
    rw [hnil] at hperm
    exact hok.1 hperm.symm.eq_nil
  · intro q hq
    simp only at hq
    exact hok.2.1 q (hperm.mem_iff.mp hq)

/-- C7: an input entry whose paid amount is non-positive or non-finite
contributes nothing to `buildCollectionBreakdown` — deleting it from the
input changes neither `details` nor `summary`; consequently every produced
`CollectionEntry` has a non-empty `payments` list consisting of positive
amounts and a positive `totalPaid`. -/
theorem collection_ignores_nonqualifying_entries
    (T₁ T₂ : List (Option Txn)) (C : Option (List (Option Customer)))
    (bad : Txn) (hbad : qualifyingPaid bad = none) :
    buildCollectionBreakdown (some (T₁ ++ some bad :: T₂)) C =
      buildCollectionBreakdown (some (T₁ ++ T₂)) C
    ∧ ∀ (T : Option (List (Option Txn)))
        (C' : Option (List (Option Customer))),
        ∀ e ∈ (buildCollectionBreakdown T C').details,
          e.payments ≠ [] ∧ (∀ p ∈ e.payments, 0 < p.amount) ∧ 0 < e.totalPaid := by
  constructor
  · have hgroups :
        collectionGroups (some (T₁ ++ some bad :: T₂)) C =
          collectionGroups (some (T₁ ++ T₂)) C := by
      simp only [collectionGroups, Option.getD_some]
      rw [List.foldl_append, List.foldl_cons,
        collectionStep_skip _ _ bad hbad, ← List.foldl_append]
    simp only [buildCollectionBreakdown, hgroups]
  · intro T C' e he
    have hperm := sortDescBy_perm (fun e : CollectionEntry => e.totalPaid)
      (collectionGroups T C')
    exact collectionGroups_ok T C' e (hperm.mem_iff.mp he)

/-- A concrete sale entry collecting 40 of 100. -/
def saleTxnC7 : Txn :=
  { type := some "sale", customer_id := some "c1", amount := .num 100,
    paid_amount := .num 40, balance := .num 60 }

/-- A concrete payment entry that collected nothing. -/
def zeroPayTxnC7 : Txn :=
  { type := some "payment", customer_id := some "c1", amount := .num 0,
    balance := .num 7 }

/-- C7 witness: removing a zero-paid payment entry leaves the breakdown of a
one-sale input unchanged, and the surviving entry is well formed. -/
theorem collection_ignores_nonqualifying_entries_witness :
    qualifyingPaid zeroPayTxnC7 = none
    ∧ (buildCollectionBreakdown
          (some [some saleTxnC7, some zeroPayTxnC7]) none =
        buildCollectionBreakdown (some [some saleTxnC7]) none
      ∧ ∀ (T : Option (List (Option Txn)))
          (C' : Option (List (Option Customer))),
          ∀ e ∈ (buildCollectionBreakdown T C').details,
            e.payments ≠ [] ∧ (∀ p ∈ e.payments, 0 < p.amount) ∧
              0 < e.totalPaid) :=
  ⟨by decide,
    collection_ignores_nonqualifying_entries [some saleTxnC7] [] none
      zeroPayTxnC7 (by decide)⟩

/-! ### C8 — sorting determinism of the collection details -/

/-- The customer keys of the qualifying transactions, in input order. -/
def qualKeysOf (T : Option (List (Option Txn))) : List String :=
  (((T.getD []).filterMap id).filter
    (fun t => (qualifyingPaid t).isSome)).map
    (fun t => t.customer_id.getD "__unknown")

/-- Append each key not seen yet, in first-occurrence order. -/
def firstOccAppend : List String → List String → List String
  | seen, [] => seen
  | seen, k :: ks => firstOccAppend (if k ∈ seen then seen else seen ++ [k]) ks

theorem collectionStep_ids (cust : List (String × Customer))
    (acc : List CollectionEntry) (t : Txn) (p : ℚ)
    (hq : qualifyingPaid t = some p) :
    (collectionStep cust acc (some t)).map (fun e => e.customerId) =
      (if (t.customer_id.getD "__unknown") ∈
          acc.map (fun e => e.customerId) then
        acc.map (fun e => e.customerId)
      else acc.map (fun e => e.customerId) ++ [t.customer_id.getD "__unknown"]) := by
  simp only [collectionStep, hq]
  have hmapid : ∀ (l : List CollectionEntry),
      (l.map (fun e =>
        if e.customerId == t.customer_id.getD "__unknown" then
          collectionUpdateEntry cust (t.customer_id.getD "__unknown") t p e
        else e)).map (fun e => e.customerId) =
        l.map (fun e => e.customerId) := by
    intro l
    rw [List.map_map]
    apply List.map_congr_left
    intro e _
    simp only [Function.comp_apply]
    by_cases hcid : (e.customerId == t.customer_id.getD "__unknown") = true
    · rw [if_pos hcid]
      rfl
    · rw [if_neg hcid]
  have hany : ((acc.any (fun e => e.customerId == t.customer_id.getD "__unknown"))
        = true) ↔
      ((t.customer_id.getD "__unknown") ∈ acc.map (fun e => e.customerId)) := by
    simp [List.any_eq_true, List.mem_map]
  by_cases hmem : (t.customer_id.getD "__unknown") ∈
      acc.map (fun e => e.customerId)
  · rw [if_pos hmem, if_pos (hany.mpr hmem)]
    exact hmapid acc
  · rw [if_neg hmem, if_neg (fun hc => hmem (hany.mp hc))]
    rw [hmapid (acc ++ [collectionNewEntry cust (t.customer_id.getD "__unknown") t])]
    simp [collectionNewEntry]

theorem collectionFold_ids (cust : List (String × Customer))
    (l : List (Option Txn)) (acc : List CollectionEntry) :
    ((l.foldl (collectionStep cust) acc).map (fun e => e.customerId)) =
      firstOccAppend (acc.map (fun e => e.customerId))
        ((((l.filterMap id).filter (fun t => (qualifyingPaid t).isSome)).map
          (fun t => t.customer_id.getD "__unknown"))) := by
  induction l generalizing acc with
  | nil => rfl
  | cons ot l ih =>
    cases ot with
    | none =>
      have hstep : collectionStep cust acc none = acc := rfl
      rw [List.foldl_cons, hstep]
      simpa using ih acc
    | some t =>
      cases hq : qualifyingPaid t with
      | none =>
        rw [List.foldl_cons, collectionStep_skip cust acc t hq]
        have : ((some t :: l).filterMap id).filter
            (fun t => (qualifyingPaid t).isSome) =
            (l.filterMap id).filter (fun t => (qualifyingPaid t).isSome) := by
          simp [List.filterMap_cons, List.filter_cons, hq]
        rw [this]
        exact ih acc
      | some p =>
        rw [List.foldl_cons, ih (collectionStep cust acc (some t))]
        have hkeys : ((some t :: l).filterMap id).filter
            (fun t => (qualifyingPaid t).isSome) =
            t :: (l.filterMap id).filter (fun t => (qualifyingPaid t).isSome) := by
          simp [List.filterMap_cons, List.filter_cons, hq]
        rw [hkeys, List.map_cons]
        rw [collectionStep_ids cust acc t p hq]
        rfl

/-- C8: `details` is sorted by `totalPaid` descending; for every total the
tied customers keep the grouping order, and the grouping order lists
customers by the position of their first qualifying entry in the input. -/
theorem collection_details_sorted_stable (T : Option (List (Option Txn)))
    (C : Option (List (Option Customer))) :
    ((buildCollectionBreakdown T C).details).Pairwise
        (fun a b => b.totalPaid ≤ a.totalPaid)
    ∧ (∀ v : ℚ,
        ((buildCollectionBreakdown T C).details).filter
            (fun e => decide (e.totalPaid = v)) =
          (collectionGroups T C).filter (fun e => decide (e.totalPaid = v)))
    ∧ (collectionGroups T C).map (fun e => e.customerId) =
        firstOccAppend [] (qualKeysOf T) := by
  refine ⟨?_, ?_, ?_⟩
  · exact sortDescBy_pairwise _ _
  · intro v
    exact sortDescBy_filter (fun e : CollectionEntry => e.totalPaid) _ v
  · unfold collectionGroups qualKeysOf
    rw [List.map_map]
    have : ((fun e : CollectionEntry => e.customerId) ∘ fun e =>
        { e with payments := sortDescBy (fun p => p.createdAt.getD 0) e.payments }) =
        (fun e : CollectionEntry => e.customerId) := rfl
    rw [this]
    simpa using collectionFold_ids (buildCustomerMap C) (T.getD []) []

/-! ### Association-map lemmas -/

theorem assocGet?_isSome_iff_any {β : Type} (m : List (String × β)) (k : String) :
    (assocGet? m k).isSome = true ↔ (m.any (fun p => p.1 == k)) = true := by
  induction m with
  | nil => simp [assocGet?]
  | cons p m ih =>
    by_cases hk : (p.1 == k) = true
    · simp [assocGet?, hk]
    · simp only [Bool.not_eq_true] at hk
      simp [assocGet?, hk, ih]

theorem assocGet?_update_self {β : Type} (m : List (String × β)) (k : String)
    (f : β → β) : assocGet? (assocUpdate m k f) k = (assocGet? m k).map f := by
  induction m with
  | nil => rfl
  | cons p m ih =>
    by_cases hk : (p.1 == k) = true
    · simp [assocUpdate, assocGet?, hk]
    · simp only [Bool.not_eq_true] at hk
      simpa [assocUpdate, assocGet?, hk] using ih

theorem assocGet?_update_ne {β : Type} (m : List (String × β)) (k k' : String)
    (f : β → β) (h : (k == k') = false) :
    assocGet? (assocUpdate m k f) k' = assocGet? m k' := by
  induction m with
  | nil => rfl
  | cons p m ih =>
    by_cases hk : (p.1 == k) = true
    · have hp : (p.1 == k') = false := by
        rw [beq_iff_eq.mp hk]
        exact h
      simp only [assocUpdate, List.map_cons, if_pos hk]
      rw [assocGet?, if_neg (by simp [h]), assocGet?, if_neg (by simp [hp])]
      simpa [assocUpdate] using ih
    · simp only [assocUpdate, List.map_cons, if_neg hk]
      by_cases hp : (p.1 == k') = true
      · rw [assocGet?, if_pos hp, assocGet?, if_pos hp]
      · rw [assocGet?, if_neg (by simp [hp]), assocGet?, if_neg (by simp [hp])]
        simpa [assocUpdate] using ih

theorem assocGet?_append_single {β : Type} (m : List (String × β))
    (k k' : String) (v : β) :
    assocGet? (m ++ [(k, v)]) k' =
      ((assocGet? m k').orElse
        (fun _ => if (k == k') = true then some v else none)) := by
  induction m with
  | nil =>
    by_cases hk : (k == k') = true
    · simp [assocGet?, hk]
    · simp only [Bool.not_eq_true] at hk
      simp [assocGet?, hk]
  | cons p m ih =>
    by_cases hp : (p.1 == k') = true
    · simp [assocGet?, hp]
    · simp only [Bool.not_eq_true] at hp
      simpa [assocGet?, hp] using ih

/-- The transaction map's bucket for `cid` is exactly the subsequence of
non-null input transactions whose resolved customer id is `cid`. -/
theorem transactionMap_get (T : Option (List (Option Txn))) (cid : String) :
    ((assocGet? (buildTransactionMap T) cid).getD []) =
      ((T.getD []).filterMap id).filter
        (fun t => t.customer_id.getD "__unknown" == cid) := by
  suffices h : ∀ (l : List (Option Txn)) (m : List (String × List Txn)),
      ((assocGet? (l.foldl (fun m ot =>
        match ot with
        | none => m
        | some t =>
          let cid' := t.customer_id.getD "__unknown"
          if m.any (fun p => p.1 == cid') then
            assocUpdate m cid' (fun l => l ++ [t])
          else m ++ [(cid', [t])]) m) cid).getD []) =
        ((assocGet? m cid).getD []) ++
          ((l.filterMap id).filter
            (fun t => t.customer_id.getD "__unknown" == cid)) by
    simpa [buildTransactionMap, assocGet?] using h (T.getD []) []
  intro l
  induction l with
  | nil => intro m; simp
  | cons ot l ih =>
    intro m
    cases ot with
    | none => simpa using ih m
    | some t =>
      rw [List.foldl_cons]
      have hfm : ((some t :: l).filterMap id) = t :: l.filterMap id := rfl
      rw [hfm, List.filter_cons]
      by_cases hcid : (t.customer_id.getD "__unknown" == cid) = true
      · rw [if_pos hcid]
        have hkey : t.customer_id.getD "__unknown" = cid := beq_iff_eq.mp hcid
        by_cases hany :
            (m.any (fun p => p.1 == t.customer_id.getD "__unknown")) = true
        · simp only [hany, if_true, ih]
          rw [hkey, assocGet?_update_self]
          have hsome : (assocGet? m cid).isSome = true := by
            rw [assocGet?_isSome_iff_any]
            rwa [hkey] at hany
          obtain ⟨b, hb⟩ := Option.isSome_iff_exists.mp hsome
          rw [hb]
          simp
        · simp only [hany, Bool.false_eq_true, if_false, ih]
          rw [assocGet?_append_single]
          have hnone : assocGet? m cid = none := by
            rw [← Option.not_isSome_iff_eq_none]
            intro hs
            rw [assocGet?_isSome_iff_any, ← hkey] at hs
            exact absurd hs hany
          rw [hkey, hnone]
          simp
      · rw [if_neg hcid]
        have hne2 : (t.customer_id.getD "__unknown" == cid) = false := by
          simp only [Bool.not_eq_true] at hcid
          exact hcid
        by_cases hany :
            (m.any (fun p => p.1 == t.customer_id.getD "__unknown")) = true
        · simp only [hany, if_true, ih]
          rw [assocGet?_update_ne _ _ _ _ hne2]
        · simp only [hany, Bool.false_eq_true, if_false, ih]
          rw [assocGet?_append_single, hne2]
          cases assocGet? m cid <;> rfl

/-! ### C3 / C4 — outstanding breakdown -/

theorem JsVal.orZero_ne_nanJ (v : JsVal) : v.orZero ≠ .nanJ := by
  cases v with
  | num q => by_cases h : q = 0 <;> simp [JsVal.orZero, JsVal.truthy, JsVal.toNum, h]
  | undef => decide
  | nullV => decide
  | nanJ => decide
  | posInf => decide
  | negInf => decide

theorem maxZero_eq_zero_of_le (a : JsNum) (h : JsNum.le a (.num 0) = true) :
    JsNum.max a (.num 0) = .num 0 := by
  unfold JsNum.max
  rw [if_neg ?hna, if_pos h]
  case hna =>
    rintro (rfl | h0)
    · simp [JsNum.le] at h
    · exact absurd h0 (by simp)

theorem maxZero_truthy_eq_lt (a : JsNum) (ha : a ≠ .nanJ) :
    (JsNum.max a (.num 0)).truthy = JsNum.lt (.num 0) (JsNum.max a (.num 0)) := by
  cases a with
  | nanJ => exact absurd rfl ha
  | posInf => decide
  | negInf => decide
  | num q =>
    by_cases h : q ≤ 0
    · rw [maxZero_eq_zero_of_le _ (by simp [JsNum.le, h])]
      decide
    · have hlt : (0 : ℚ) < q := lt_of_not_le h
      have hm : JsNum.max (.num q) (.num 0) = .num q := by
        unfold JsNum.max
        rw [if_neg (by rintro (h1 | h1) <;> exact absurd h1 (by simp)),
          if_neg (by simp [JsNum.le]; exact lt_of_not_le h)]
      rw [hm]
      simp [JsNum.truthy, JsNum.lt, hlt, ne_of_gt hlt]

/-- Inversion of the single mapped element of the outstanding breakdown. -/
theorem mkOutstandingEntry_inv (cust : List (String × Customer))
    (txnMap : List (String × List Txn)) (pr : String × Option PerCustomerSummary)
    (e : OutstandingEntry)
    (h : mkOutstandingEntry cust txnMap pr = some e) :
    (outstandingOf pr.2).truthy = true ∧ pr.1 ≠ "__unknown"
    ∧ e.customerId = pr.1 ∧ e.outstanding = outstandingOf pr.2
    ∧ e.nextDue = ((sortAscBy (fun t => t.due_date.getD 0)
        (((assocGet? txnMap pr.1).getD []).filter isDueCandidate)).head?).bind
          Txn.due_date := by
  simp only [mkOutstandingEntry] at h
  split at h
  · simp at h
  · rename_i htruthy
    split at h
    · simp at h
    · rename_i hunk
      obtain rfl := Option.some.inj h
      exact ⟨not_not.mp (by simpa using htruthy), hunk, rfl, rfl, rfl⟩

theorem mem_outstanding_inv (S : TransactionSummaryResult)
    (T : Option (List (Option Txn))) (C : Option (List (Option Customer)))
    (e : OutstandingEntry) (he : e ∈ buildOutstandingBreakdown S T C) :
    ∃ pr ∈ S.perCustomer.getD [],
      mkOutstandingEntry (buildCustomerMap C) (buildTransactionMap T) pr =
        some e := by
  simp only [buildOutstandingBreakdown] at he
  rw [(sortDescBy_perm _ _).mem_iff] at he
  exact List.mem_filterMap.mp he

/-- C3: every produced outstanding entry carries
`max(summary outstanding, 0)`, is strictly positive and is not the
`"__unknown"` bucket; customers with non-positive summary outstanding and the
unknown bucket are excluded entirely; and the list is sorted by outstanding
descending. -/
theorem outstanding_breakdown_entries (S : TransactionSummaryResult)
    (T : Option (List (Option Txn))) (C : Option (List (Option Customer)))
    (hnd : ((S.perCustomer.getD []).map Prod.fst).Nodup) :
    (∀ e ∈ buildOutstandingBreakdown S T C,
        e.customerId ≠ "__unknown"
        ∧ JsNum.lt (.num 0) e.outstanding = true
        ∧ ∃ pr ∈ S.perCustomer.getD [],
            pr.1 = e.customerId ∧ e.outstanding = outstandingOf pr.2)
    ∧ (∀ pr ∈ S.perCustomer.getD [],
        (pr.1 = "__unknown" ∨
          JsNum.le
            ((pr.2.elim JsVal.undef PerCustomerSummary.outstanding).orZero)
            (.num 0) = true) →
        ∀ e ∈ buildOutstandingBreakdown S T C, e.customerId ≠ pr.1)
    ∧ (buildOutstandingBreakdown S T C).Pairwise
        (fun a b => b.outstanding.sortKey ≤ a.outstanding.sortKey) := by
  refine ⟨?_, ?_, sortDescBy_pairwise _ _⟩
  · intro e he
    obtain ⟨pr, hpr, hmk⟩ := mem_outstanding_inv S T C e he
    obtain ⟨ht, hunk, hcid, hout, -⟩ := mkOutstandingEntry_inv _ _ _ _ hmk
    refine ⟨hcid ▸ hunk, ?_, ⟨pr, hpr, hcid.symm, hout⟩⟩
    rw [hout, outstandingOf,
      ← maxZero_truthy_eq_lt _ (JsVal.orZero_ne_nanJ _)]
    rw [outstandingOf] at ht
    exact ht
  · intro pr hpr hcond e he hcontra
    obtain ⟨pr', hpr', hmk⟩ := mem_outstanding_inv S T C e he
    obtain ⟨ht, hunk, hcid, -, -⟩ := mkOutstandingEntry_inv _ _ _ _ hmk
    have hfst : pr'.1 = pr.1 := by rw [← hcid, hcontra]
    have heq : pr' = pr :=
      List.inj_on_of_nodup_map hnd hpr' hpr hfst
    rcases hcond with hcond | hcond
    · exact hunk (hfst.trans hcond)
    · rw [heq, outstandingOf, maxZero_eq_zero_of_le _ hcond] at ht
      simp [JsNum.truthy] at ht

/-- Concrete transaction summary for the C3 witness. -/
def summaryC3 : TransactionSummaryResult :=
  { perCustomer := some
      [("c1", some { outstanding := JsVal.num 5 }),
        ("c2", some { outstanding := JsVal.num 0 })] }

/-- C3 witness: the theorem instantiated at a two-customer summary (one
positive, one zero). -/
theorem outstanding_breakdown_entries_witness :
    (∀ e ∈ buildOutstandingBreakdown summaryC3 none none,
        e.customerId ≠ "__unknown"
        ∧ JsNum.lt (.num 0) e.outstanding = true
        ∧ ∃ pr ∈ summaryC3.perCustomer.getD [],
            pr.1 = e.customerId ∧ e.outstanding = outstandingOf pr.2)
    ∧ (∀ pr ∈ summaryC3.perCustomer.getD [],
        (pr.1 = "__unknown" ∨
          JsNum.le
            ((pr.2.elim JsVal.undef PerCustomerSummary.outstanding).orZero)
            (.num 0) = true) →
        ∀ e ∈ buildOutstandingBreakdown summaryC3 none none,
          e.customerId ≠ pr.1)
    ∧ (buildOutstandingBreakdown summaryC3 none none).Pairwise
        (fun a b => b.outstanding.sortKey ≤ a.outstanding.sortKey) :=
  outstanding_breakdown_entries summaryC3 none none (by decide)

/-- The candidate entries the claim quantifies over for customer `cid`:
that customer's non-null input transactions with positive balance and a due
date present, in input order. -/
def claimCandidates (T : Option (List (Option Txn))) (cid : String) :
    List Txn :=
  (((T.getD []).filterMap id).filter
    (fun t => t.customer_id.getD "__unknown" == cid)).filter isDueCandidate

/-- The `nextDue` formula in the words of the claim (spec §4.4): the
smallest dueDate strictly after `now` among the candidate entries, ties
broken by input order, and null when no such entry exists. -/
def claimFutureNextDue (now : Int) (candidates : List Txn) : Option Int :=
  (firstMinBy (fun t => t.due_date.getD 0)
    (candidates.filter (fun t => now < t.due_date.getD 0))).bind Txn.due_date

/-- Summary used by the C4 counterexample and witness. -/
def summaryC4 : TransactionSummaryResult :=
  { perCustomer := some [("c1", some { outstanding := JsVal.num 10 })] }

/-- A sale with positive balance whose due date (epoch 5) lies in the past
of the reference instant 10. -/
def pastDueTxnC4 : Txn :=
  { customer_id := some "c1", type := some "sale", amount := .num 40,
    balance := .num 4, due_date := some 5 }

/-- C4 counterexample: the code reports the past due date (epoch 5) as
`nextDue`, while the claim's smallest-*future*-dueDate formula (at reference
instant 10, after which no candidate is due) yields null. -/
theorem outstanding_nextDue_counterexample :
    (buildOutstandingBreakdown summaryC4 (some [some pastDueTxnC4]) none).map
        (fun e => e.nextDue) = [some 5]
    ∧ claimFutureNextDue 10
        (claimCandidates (some [some pastDueTxnC4]) "c1") = none
    ∧ some (5 : Int) ≠ (none : Option Int) :=
  ⟨by decide, by decide, by decide⟩

/-- C4 (amended): for every customer in the outstanding breakdown, `nextDue`
is the smallest dueDate — past or future — among that customer's entries
with positive balance and a due date present, ties broken by original input
order, and null when no such entry exists. -/
theorem outstanding_nextDue_min (S : TransactionSummaryResult)
    (T : Option (List (Option Txn))) (C : Option (List (Option Customer))) :
    ∀ e ∈ buildOutstandingBreakdown S T C,
      e.nextDue = (firstMinBy (fun t => t.due_date.getD 0)
        (claimCandidates T e.customerId)).bind Txn.due_date := by
  intro e he
  obtain ⟨pr, hpr, hmk⟩ := mem_outstanding_inv S T C e he
  obtain ⟨-, -, hcid, -, hnext⟩ := mkOutstandingEntry_inv _ _ _ _ hmk
  rw [hnext, sortAscBy_head?, hcid]
  unfold claimCandidates
  rw [transactionMap_get]

/-- A second candidate with a later due date (epoch 9). -/
def laterDueTxnC4 : Txn :=
  { customer_id := some "c1", type := some "sale", amount := .num 60,
    balance := .num 3, due_date := some 9 }

/-- The outstanding entry produced for the C4 witness input. -/
def entryC4 : OutstandingEntry :=
  { customerId := "c1", customer := none, customerName := "Customer",
    outstanding := .num 10, phone := none, nextDue := some 5,
    lastActivity := none }

/-- C4 witness: with candidates due at epochs 9 and 5, the produced entry's
`nextDue` is 5, matching the first-minimal candidate. -/
theorem outstanding_nextDue_min_witness :
    entryC4 ∈ buildOutstandingBreakdown summaryC4
        (some [some laterDueTxnC4, some pastDueTxnC4]) none
    ∧ entryC4.nextDue = (firstMinBy (fun t => t.due_date.getD 0)
        (claimCandidates (some [some laterDueTxnC4, some pastDueTxnC4])
          entryC4.customerId)).bind Txn.due_date :=
  ⟨by decide,
    outstanding_nextDue_min summaryC4
      (some [some laterDueTxnC4, some pastDueTxnC4]) none entryC4 (by decide)⟩

/-! ### C2 — Tier-1 precedence of the P&L breakdown -/

theorem pnlFold_totals (l : List PnlSaleRow) :
    (l.foldl (fun acc r =>
        { pnl := acc.pnl + r.row.pnl
          soldQuantity := acc.soldQuantity + r.row.soldQuantity
          saleValue := acc.saleValue + r.row.totalSaleValue })
      ({ pnl := 0, soldQuantity := 0, saleValue := 0 } : PnlTotals)) =
      { pnl := (l.map (fun r => r.row.pnl)).sum
        soldQuantity := (l.map (fun r => r.row.soldQuantity)).sum
        saleValue := (l.map (fun r => r.row.totalSaleValue)).sum } := by
  suffices h : ∀ (acc : PnlTotals),
      (l.foldl (fun acc r =>
          { pnl := acc.pnl + r.row.pnl
            soldQuantity := acc.soldQuantity + r.row.soldQuantity
            saleValue := acc.saleValue + r.row.totalSaleValue }) acc) =
        { pnl := acc.pnl + (l.map (fun r => r.row.pnl)).sum
          soldQuantity :=
            acc.soldQuantity + (l.map (fun r => r.row.soldQuantity)).sum
          saleValue := acc.saleValue + (l.map (fun r => r.row.totalSaleValue)).sum } by
    simpa using h { pnl := 0, soldQuantity := 0, saleValue := 0 }
  induction l with
  | nil => intro acc; simp
  | cons r l ih =>
    intro acc
    rw [List.foldl_cons, ih]
    simp [add_assoc]

/-- C2: whenever at least one non-payment entry survives the drop rule, the
result is exactly the Tier-1 transaction rows sorted by `createdAt`
descending, with totals summed over them — never the batch aggregates. -/
theorem pnl_tier1_authoritative (B : Option (List (Option Batch)))
    (T : Option (List (Option Txn))) (h : tier1Rows B T ≠ []) :
    (buildPnlBreakdown B T).rows =
      (sortDescBy (fun r => r.soldAt.getD 0) (tier1Rows B T)).map PnlSaleRow.row
    ∧ List.Perm (sortDescBy (fun r => r.soldAt.getD 0) (tier1Rows B T))
        (tier1Rows B T)
    ∧ (sortDescBy (fun r => r.soldAt.getD 0) (tier1Rows B T)).Pairwise
        (fun a b => b.soldAt.getD 0 ≤ a.soldAt.getD 0)
    ∧ (buildPnlBreakdown B T).totals =
        { pnl := ((tier1Rows B T).map (fun r => r.row.pnl)).sum
          soldQuantity :=
            ((tier1Rows B T).map (fun r => r.row.soldQuantity)).sum
          saleValue := ((tier1Rows B T).map (fun r => r.row.totalSaleValue)).sum } := by
  have hempty : (tier1Rows B T).isEmpty = false := by
    cases he : tier1Rows B T with
    | nil => exact absurd he h
    | cons a l => rfl
  have hperm := sortDescBy_perm (fun r : PnlSaleRow => r.soldAt.getD 0)
    (tier1Rows B T)
  refine ⟨?_, hperm, sortDescBy_pairwise _ _, ?_⟩
  · simp only [buildPnlBreakdown, hempty, Bool.false_eq_true, if_false]
  · simp only [buildPnlBreakdown, hempty, Bool.false_eq_true, if_false,
      pnlFold_totals]
    have hp := fun (f : PnlSaleRow → ℚ) => (hperm.map f).sum_eq
    rw [hp (fun r => r.row.pnl), hp (fun r => r.row.soldQuantity),
      hp (fun r => r.row.totalSaleValue)]

/-- A sale of 2 kg at rate 5 against purchase rate 50: a surviving Tier-1
row with negative profit. -/
def lossSaleTxnC2 : Txn :=
  { type := some "sale", customer_id := some "c1", amount := .num 10,
    quantity := .num 2, purchase_rate := .num 50, created_at := some 100 }

/-- C2 witness: even with a single negative-profit sale row, Tier 1 is
authoritative. -/
theorem pnl_tier1_authoritative_witness :
    (buildPnlBreakdown none (some [some lossSaleTxnC2])).rows =
      (sortDescBy (fun r => r.soldAt.getD 0)
        (tier1Rows none (some [some lossSaleTxnC2]))).map PnlSaleRow.row
    ∧ List.Perm (sortDescBy (fun r => r.soldAt.getD 0)
        (tier1Rows none (some [some lossSaleTxnC2])))
        (tier1Rows none (some [some lossSaleTxnC2]))
    ∧ (sortDescBy (fun r => r.soldAt.getD 0)
        (tier1Rows none (some [some lossSaleTxnC2]))).Pairwise
        (fun a b => b.soldAt.getD 0 ≤ a.soldAt.getD 0)
    ∧ (buildPnlBreakdown none (some [some lossSaleTxnC2])).totals =
        { pnl := ((tier1Rows none (some [some lossSaleTxnC2])).map
            (fun r => r.row.pnl)).sum
          soldQuantity := ((tier1Rows none (some [some lossSaleTxnC2])).map
            (fun r => r.row.soldQuantity)).sum
          saleValue := ((tier1Rows none (some [some lossSaleTxnC2])).map
            (fun r => r.row.totalSaleValue)).sum } :=
  pnl_tier1_authoritative none (some [some lossSaleTxnC2]) (by decide)

/-! ### C1 — ledger running-balance status vs `deriveStatus` -/

theorem JsVal.orZero_num (q : ℚ) : (JsVal.num q).orZero = .num q := by
  by_cases h : q = 0 <;> simp [JsVal.orZero, JsVal.truthy, JsVal.toNum, h]

theorem char_toNat_ofNatAux (n : Nat) (h : n.isValidChar) :
    (Char.ofNatAux n h).toNat = n := by
  simp [Char.ofNatAux, Char.toNat, UInt32.toNat]

theorem char_toLower_idem (c : Char) : c.toLower.toLower = c.toLower := by
  by_cases h : c.toNat ≥ 65 ∧ c.toNat ≤ 90
  · have hvalid : (c.toNat + 32).isValidChar := Or.inl (by omega)
    have h1 : c.toLower = Char.ofNatAux (c.toNat + 32) hvalid := by
      unfold Char.toLower
      rw [if_pos h]
      unfold Char.ofNat
      rw [dif_pos hvalid]
    rw [h1]
    unfold Char.toLower
    rw [char_toNat_ofNatAux]
    rw [if_neg (by omega)]
  · have h1 : c.toLower = c := by
      unfold Char.toLower
      rw [if_neg h]
    rw [h1, h1]

theorem jsToLower_idem (s : String) : jsToLower (jsToLower s) = jsToLower s := by
  unfold jsToLower
  rw [show (String.mk (s.toList.map Char.toLower)).toList =
    s.toList.map Char.toLower from rfl]
  rw [List.map_map]
  congr 1
  apply List.map_congr_left
  intro c _
  exact char_toLower_idem c

theorem txnType_lower_idem (t : Txn) : jsToLower (txnType t) = txnType t := by
  unfold txnType
  exact jsToLower_idem _

/-- The body of `deriveStatus` at finite arguments, for calculation. -/
theorem deriveStatus_eval (ty : String) (a p b : ℚ) :
    deriveStatus ty (some (.num a)) (.num p) (.num b) =
      (if b ≤ 0 then "full paid"
       else if jsToLower ty = "payment" then
         (if 0 < b then "partial paid" else "full paid")
       else if a = 0 ∧ p = 0 then "partial left"
       else if 0 < p ∧ p < a then "partial paid"
       else if a ≤ p ∧ 0 < a then "full paid"
       else "partial left") := rfl

/-- A single transaction of the matching customer yields a single ledger
row, replayed from a zero running balance. -/
theorem buildLedgerRows_single (c : Customer) (t : Txn)
    (hcid : t.customer_id = c.id) :
    buildLedgerRows [c] [t] = [ledgerRowFor c (.num 0) t] := by
  have hfilter : [t].filter (fun t' => t'.customer_id == c.id) = [t] := by
    simp [List.filter_cons, hcid]
  simp only [buildLedgerRows, List.map_cons, List.map_nil, hfilter]
  rfl

/-- The replay classification of a non-payment row with finite amount and
positive paid amount, from a prior running balance of `r`. -/
theorem ledgerRowFor_status_nonpayment (c : Customer) (t : Txn) (r a p : ℚ)
    (htype : jsToLower (t.type.getD "") ≠ "payment")
    (hamount : t.amount = .num a) (hpaid : t.paid_amount = .num p)
    (hp : 0 < p) :
    (ledgerRowFor c (.num r) t).statusLabel =
      (if JsNum.lt (.num 0) (JsNum.max (.num (r + (a - p))) (.num 0)) = true
       then LedgerStatus.partialDue (JsNum.max (.num (r + (a - p))) (.num 0))
       else .fullPayment) := by
  have hamt : t.amount.nullishZeroNum = .num a := by rw [hamount]; rfl
  have hpd : t.paid_amount.nullishZeroNum = .num p := by rw [hpaid]; rfl
  have hcredit : JsNum.max (.num p) (.num 0) = .num p := by
    unfold JsNum.max
    rw [if_neg (by rintro (h | h) <;> simp at h),
      if_neg (by simp [JsNum.le, not_le.mpr hp])]
  have hrun : (JsNum.num r).add ((JsNum.num a).sub (.num p)) =
      .num (r + (a - p)) := by
    show JsNum.num (r + (a + -p)) = .num (r + (a - p))
    rw [← sub_eq_add_neg]
  simp only [ledgerRowFor, if_neg htype, hamt, hpd, hcredit, hrun]

/-- The running balance such a row carries forward: `r + (amount − paid)`. -/
theorem ledgerRowFor_running (c : Customer) (t : Txn) (r a p : ℚ)
    (htype : jsToLower (t.type.getD "") ≠ "payment")
    (hamount : t.amount = .num a) (hpaid : t.paid_amount = .num p)
    (hp : 0 < p) :
    (ledgerRowFor c (.num r) t).runningBalance = .num (r + (a - p)) := by
  have hamt : t.amount.nullishZeroNum = .num a := by rw [hamount]; rfl
  have hpd : t.paid_amount.nullishZeroNum = .num p := by rw [hpaid]; rfl
  have hcredit : JsNum.max (.num p) (.num 0) = .num p := by
    unfold JsNum.max
    rw [if_neg (by rintro (h | h) <;> simp at h),
      if_neg (by simp [JsNum.le, not_le.mpr hp])]
  have hrun : (JsNum.num r).add ((JsNum.num a).sub (.num p)) =
      .num (r + (a - p)) := by
    show JsNum.num (r + (a + -p)) = .num (r + (a - p))
    rw [← sub_eq_add_neg]
  simp only [ledgerRowFor, if_neg htype, hamt, hpd, hcredit, hrun]

/-- A replay splits at any point, the suffix starting from the running
balance the prefix carries out. -/
theorem ledgerReplay_append (c : Customer) (z : JsNum) (l1 l2 : List Txn) :
    ledgerReplay c z (l1 ++ l2) =
      ledgerReplay c z l1 ++ ledgerReplay c (ledgerRunning c z l1) l2 := by
  induction l1 generalizing z with
  | nil => rfl
  | cons t l1 ih =>
    show ledgerRowFor c z t
        :: ledgerReplay c (ledgerRowFor c z t).runningBalance (l1 ++ l2) = _
    rw [ih]
    rfl

/-- The ledger of a single customer is that customer's replay. -/
theorem buildLedgerRows_one (c : Customer) (ts : List Txn) :
    buildLedgerRows [c] ts =
      ledgerReplay c (.num 0)
        (sortAscBy (fun t => t.created_at.getD 0)
          (ts.filter (fun t => t.customer_id == c.id))) := by
  simp only [buildLedgerRows, List.map_cons, List.map_nil, List.flatten_cons,
    List.flatten_nil, List.append_nil]

/-- The collection breakdown of a single qualifying transaction and no
customer records. -/
theorem collection_single_details (t : Txn) (p : ℚ)
    (hq : qualifyingPaid t = some p) :
    (buildCollectionBreakdown (some [some t]) none).details =
      [collectionUpdateEntry [] (t.customer_id.getD "__unknown") t p
        (collectionNewEntry [] (t.customer_id.getD "__unknown") t)] := by
  simp only [buildCollectionBreakdown, collectionGroups, buildCustomerMap,
    Option.getD_some, Option.getD_none, List.foldl_cons, List.foldl_nil,
    collectionStep, hq, List.any_nil, Bool.false_eq_true, if_false,
    List.nil_append, List.map_cons, List.map_nil]
  rw [if_pos (by simp [collectionNewEntry])]
  simp only [collectionUpdateEntry, collectionNewEntry, List.nil_append]
  rfl

/-- The single payment produced for that entry, with its derived status. -/
theorem collection_single_payments (t : Txn) (p a b : ℚ)
    (hsale : txnSaleAmount t = .num a) (hbalance : txnBalance t = .num b) :
    (collectionUpdateEntry [] (t.customer_id.getD "__unknown") t p
        (collectionNewEntry [] (t.customer_id.getD "__unknown") t)).payments
      = [{ id := t.id.getD ((t.customer_id.getD "__unknown") ++ "-" ++ "0")
           amount := p
           createdAt := t.created_at
           teaName := (t.tea_name.orElse (fun _ => t.batch_name)).orElse
             (fun _ => t.tea)
           quantity := (t.quantity.toNum).toFinite?
           type := txnType t
           saleAmount := if 0 < a then some a else none
           balance := some b
           status := deriveStatus (txnType t) (some (.num a)) (.num p)
             (.num b) }] := by
  simp only [collectionUpdateEntry, collectionNewEntry, hsale, hbalance,
    List.nil_append]
  rfl

/-- The customer of the C1 counterexample. -/
def custC1 : Customer := { id := some "c1" }

/-- A sale for 100 of which 50 was collected, but whose stored balance field
(stale) says 0. -/
def staleTxnC1 : Txn :=
  { type := some "sale", customer_id := some "c1", amount := .num 100,
    paid_amount := .num 50, balance := .num 0, created_at := some 10 }

/-- C1 counterexample: on a stored-balance-0 sale with only half collected,
the ledger replay classifies the entry as `Partial – Due ₹50` while
`deriveStatus` (as applied by the collection breakdown) returns
`"full paid"` — the two derivation paths disagree on an entry to which both
apply. -/
theorem ledger_vs_deriveStatus_counterexample :
    (buildLedgerRows [custC1] [staleTxnC1]).map (fun r => r.statusLabel) =
      [LedgerStatus.partialDue (.num 50)]
    ∧ ((buildCollectionBreakdown (some [some staleTxnC1])
        (some [some custC1])).details.map
        (fun e => e.payments.map (fun q => q.status))) = [["full paid"]]
    ∧ LedgerStatus.partialDue (.num 50) ≠ LedgerStatus.fullPayment := by
  refine ⟨?_, by decide, by decide⟩
  rw [buildLedgerRows_single custC1 staleTxnC1 (by decide), List.map_cons,
    List.map_nil]
  rw [ledgerRowFor_status_nonpayment custC1 staleTxnC1 0 100 50 (by decide)
    (by decide) (by decide) (by norm_num)]
  have h50 : (0 : ℚ) + (100 - 50) = 50 := by norm_num
  rw [h50]
  have hmax : JsNum.max (.num 50) (.num 0) = .num 50 := by decide
  rw [hmax]
  have hlt : JsNum.lt (.num 0) (.num 50) = true := by decide
  rw [hlt, if_pos rfl]

/-- C1 (amended): at any position of the ledger replay — entry `t` sitting
between `pre` and `post` in the customer's sorted filtered transactions,
with `r` the running balance the prefix carries out — a non-payment entry
with finite amount `a`, finite paid `p > 0` and stored balance `b` is
labelled fully paid by the replay iff `r + (a − p) ≤ 0`, while
`deriveStatus` returns `"full paid"` iff `b ≤ 0` or the sale is overpaid
(`0 < a ≤ p`); hence the two paths agree whenever the stored balance is
consistent with the replay (`b = r + (a − p)`) and moreover `p < a` or
`b ≤ 0`.  With a stale stored balance, or an overpaid sale atop a positive
carried balance, they can disagree (see the counterexample). -/
theorem ledger_status_agrees_on_consistent_entry
    (c : Customer) (ts pre post : List Txn) (t : Txn) (r a p b : ℚ)
    (hsplit : sortAscBy (fun u => u.created_at.getD 0)
        (ts.filter (fun u => u.customer_id == c.id)) = pre ++ t :: post)
    (hrun : ledgerRunning c (.num 0) pre = .num r)
    (htype : jsToLower (t.type.getD "") ≠ "payment")
    (hamount : t.amount = .num a)
    (hpaid : t.paid_amount = .num p)
    (hp : 0 < p)
    (hbal : t.balance = .num b) :
    ∃ row entry pay,
      buildLedgerRows [c] ts =
        ledgerReplay c (.num 0) pre ++ row
          :: ledgerReplay c row.runningBalance post
      ∧ (buildCollectionBreakdown (some [some t]) none).details = [entry]
      ∧ entry.payments = [pay]
      ∧ ((row.statusLabel = LedgerStatus.fullPayment) ↔ r + (a - p) ≤ 0)
      ∧ ((pay.status = "full paid") ↔ (b ≤ 0 ∨ (a ≤ p ∧ 0 < a)))
      ∧ (b = r + (a - p) → p < a ∨ b ≤ 0 →
          ((row.statusLabel = LedgerStatus.fullPayment) ↔
            (pay.status = "full paid"))) := by
  have htype' : ¬ (txnType t = "payment") := htype
  have hq : qualifyingPaid t = some p := by
    unfold qualifyingPaid txnAmountPaid
    rw [if_neg htype', hpaid, JsVal.orZero_num]
    simp [JsNum.toFinite?, not_le.mpr hp]
  have hsale : txnSaleAmount t = .num a := by
    unfold txnSaleAmount
    rw [if_neg htype', hamount, JsVal.orZero_num]
  have hbalance : txnBalance t = .num b := by
    unfold txnBalance
    rw [hbal]
    simp [JsVal.toNum, JsNum.isFinite]
  have hreplay : ((ledgerRowFor c (.num r) t).statusLabel =
      LedgerStatus.fullPayment) ↔ r + (a - p) ≤ 0 := by
    rw [ledgerRowFor_status_nonpayment c t r a p htype hamount hpaid hp]
    rcases le_or_lt (r + (a - p)) 0 with hle | hlt
    · have hmax : JsNum.max (.num (r + (a - p))) (.num 0) = .num 0 :=
        maxZero_eq_zero_of_le _ (by simp [JsNum.le, hle])
      rw [hmax]
      have h00 : JsNum.lt (.num 0) (.num 0) = false := by decide
      rw [h00, if_neg Bool.false_ne_true]
      exact iff_of_true rfl hle
    · have hmax : JsNum.max (.num (r + (a - p))) (.num 0) =
          .num (r + (a - p)) := by
        unfold JsNum.max
        rw [if_neg (by rintro (h | h) <;> simp at h),
          if_neg (by simp [JsNum.le, not_le.mpr hlt])]
      rw [hmax]
      have hlt' : JsNum.lt (.num 0) (.num (r + (a - p))) = true := by
        simp [JsNum.lt, hlt]
      rw [hlt', if_pos rfl]
      exact iff_of_false (by simp) (not_le.mpr hlt)
  have hderive : (deriveStatus (txnType t) (some (.num a)) (.num p) (.num b) =
      "full paid") ↔ (b ≤ 0 ∨ (a ≤ p ∧ 0 < a)) := by
    rw [deriveStatus_eval, txnType_lower_idem]
    by_cases hb : b ≤ 0
    · rw [if_pos hb]
      exact iff_of_true rfl (Or.inl hb)
    · rw [if_neg hb, if_neg htype',
        if_neg (show ¬ (a = 0 ∧ p = 0) from fun hc => absurd hc.2 hp.ne')]
      by_cases hpa : p < a
      · rw [if_pos (show 0 < p ∧ p < a from ⟨hp, hpa⟩)]
        refine iff_of_false (by decide) ?_
        rintro (h | h)
        · exact hb h
        · exact absurd hpa (not_lt.mpr h.1)
      · rw [if_neg (show ¬ (0 < p ∧ p < a) from fun hc => hpa hc.2)]
        by_cases ha : a ≤ p ∧ 0 < a
        · rw [if_pos ha]
          exact iff_of_true rfl (Or.inr ha)
        · rw [if_neg ha]
          refine iff_of_false (by decide) ?_
          rintro (h | h)
          · exact hb h
          · exact ha h
  refine ⟨ledgerRowFor c (.num r) t, _, _, ?_,
    collection_single_details t p hq,
    collection_single_payments t p a b hsale hbalance, hreplay, hderive, ?_⟩
  · rw [buildLedgerRows_one, hsplit, ledgerReplay_append, hrun]
    rfl
  · intro hbeq hcond
    constructor
    · intro hrow
      refine hderive.mpr (Or.inl ?_)
      rw [hbeq]
      exact hreplay.mp hrow
    · intro hpay
      apply hreplay.mpr
      rw [← hbeq]
      rcases hderive.mp hpay with h | h
      · exact h
      · rcases hcond with hpa | hb0
        · exact absurd h.1 (not_le.mpr hpa)
        · exact hb0

/-- The customer of the C1 witness. -/
def custC1w : Customer := { id := some "c9" }

/-- A prior partial sale: 10 of 30 collected, carrying a balance of 20. -/
def priorTxnC1 : Txn :=
  { type := some "sale", customer_id := some "c9", amount := .num 30,
    paid_amount := .num 10, balance := .num 20, created_at := some 10 }

/-- A consistent second sale: 40 of 100 collected atop the carried 20, so
its stored balance is 80 = 20 + (100 − 40). -/
def consistentTxnC1 : Txn :=
  { type := some "sale", customer_id := some "c9", amount := .num 100,
    paid_amount := .num 40, balance := .num 80, created_at := some 20 }

/-- C1 witness: the amended agreement theorem instantiated at the second
entry of a two-sale ledger whose stored balance 80 matches the replay's
running balance 20 + (100 − 40). -/
theorem ledger_status_agrees_on_consistent_entry_witness :
    ∃ row entry pay,
      buildLedgerRows [custC1w] [priorTxnC1, consistentTxnC1] =
        ledgerReplay custC1w (.num 0) [priorTxnC1] ++ row
          :: ledgerReplay custC1w row.runningBalance []
      ∧ (buildCollectionBreakdown (some [some consistentTxnC1]) none).details
        = [entry]
      ∧ entry.payments = [pay]
      ∧ ((row.statusLabel = LedgerStatus.fullPayment) ↔
          (20 : ℚ) + (100 - 40) ≤ 0)
      ∧ ((pay.status = "full paid") ↔
          ((80 : ℚ) ≤ 0 ∨ ((100 : ℚ) ≤ 40 ∧ (0 : ℚ) < 100)))
      ∧ ((80 : ℚ) = 20 + (100 - 40) → (40 : ℚ) < 100 ∨ (80 : ℚ) ≤ 0 →
          ((row.statusLabel = LedgerStatus.fullPayment) ↔
            (pay.status = "full paid"))) :=
  ledger_status_agrees_on_consistent_entry custC1w
    [priorTxnC1, consistentTxnC1] [priorTxnC1] [] consistentTxnC1 20 100 40 80
    (by decide)
    (by show (ledgerRowFor custC1w (.num 0) priorTxnC1).runningBalance =
          JsNum.num 20
        rw [ledgerRowFor_running custC1w priorTxnC1 0 30 10 (by decide) rfl
          rfl (by norm_num)]
        norm_num)
    (by decide) rfl rfl (by norm_num)
    (by show JsVal.num 80 = .num 80; rfl)

/-! ### C6 — outstanding amounts vs the cached hint -/

/-- The balance sum the report's `summaryMap` accumulates for a customer id:
`Σ Number(txn.balance ?? 0)` over the transactions carrying that id. -/
def reportBalanceSum (ts : List Txn) (cid : Option String) : JsNum :=
  match cid with
  | none => .num 0
  | some c =>
    (ts.filter (fun t => t.customer_id == some c)).foldl
      (fun b t => b.add t.balance.nullishZeroNum) (.num 0)

/-- The balance sum of the (spec-modelled) aggregator for a resolved
customer id: `Σ toFiniteNumber(balance) ?? 0` over the non-null entries in
that bucket. -/
def specBalanceQ (T : Option (List (Option Txn))) (cid : String) : ℚ :=
  (((T.getD []).filterMap id).filter (fun t => resolvedCid t == cid)).foldl
    (fun b t => b + (toFiniteNumber t.balance).getD 0) 0

theorem assocGet?_mapReplace_self {β : Type} (m : List (String × β))
    (k : String) (v : β) (hany : (m.any (fun p => p.1 == k)) = true) :
    assocGet? (m.map (fun p => if p.1 == k then (k, v) else p)) k = some v := by
  induction m with
  | nil => simp at hany
  | cons p m ih =>
    by_cases hp : (p.1 == k) = true
    · simp [assocGet?, hp]
    · have hany' : (m.any (fun p => p.1 == k)) = true := by
        simp only [List.any_cons, hp, Bool.false_or] at hany
        exact hany
      rw [List.map_cons, if_neg hp, assocGet?, if_neg (by simp [hp])]
      exact ih hany'

theorem assocGet?_mapReplace_ne {β : Type} (m : List (String × β))
    (k k' : String) (v : β) (h : (k == k') = false) :
    assocGet? (m.map (fun p => if p.1 == k then (k, v) else p)) k' =
      assocGet? m k' := by
  induction m with
  | nil => rfl
  | cons p m ih =>
    by_cases hp : (p.1 == k) = true
    · have hp' : (p.1 == k') = false := by
        rw [beq_iff_eq.mp hp]
        exact h
      rw [List.map_cons, if_pos hp, assocGet?, if_neg (by simp [h]),
        assocGet?, if_neg (by simp [hp']), ih]
    · rw [List.map_cons, if_neg hp, assocGet?, assocGet?]
      by_cases hp' : (p.1 == k') = true
      · rw [if_pos hp', if_pos hp']
      · rw [if_neg hp', if_neg hp', ih]

theorem assocGet?_set_self {β : Type} (m : List (String × β)) (k : String)
    (v : β) : assocGet? (assocSet m k v) k = some v := by
  unfold assocSet
  by_cases hany : (m.any (fun p => p.1 == k)) = true
  · rw [if_pos hany]
    exact assocGet?_mapReplace_self m k v hany
  · rw [if_neg hany, assocGet?_append_single]
    have hnone : assocGet? m k = none := by
      rw [← Option.not_isSome_iff_eq_none]
      intro hs
      exact hany ((assocGet?_isSome_iff_any m k).mp hs)
    rw [hnone]
    simp

theorem assocGet?_set_ne {β : Type} (m : List (String × β)) (k k' : String)
    (v : β) (h : (k == k') = false) :
    assocGet? (assocSet m k v) k' = assocGet? m k' := by
  unfold assocSet
  by_cases hany : (m.any (fun p => p.1 == k)) = true
  · rw [if_pos hany]
    exact assocGet?_mapReplace_ne m k k' v h
  · rw [if_neg hany, assocGet?_append_single, h]
    cases assocGet? m k' <;> rfl

/-- One spent transaction step of the `summaryMap`, seen through `get`. -/
theorem summaryTxnStep_get (m : List (String × SummaryAcc)) (t : Txn)
    (cid : String) :
    assocGet? (summaryTxnStep m t) cid =
      (if (t.customer_id == some cid) = true then
        (assocGet? m cid).map (fun a => summaryAddTxn a t)
      else assocGet? m cid) := by
  unfold summaryTxnStep
  cases hid : t.customer_id with
  | none => rfl
  | some c =>
    by_cases hc : (c == cid) = true
    · have hkk := beq_iff_eq.mp hc
      rw [show ((some c : Option String) == some cid) = (c == cid) from rfl,
        hc, if_pos rfl]
      show assocGet? (if (m.any (fun p => p.1 == c)) = true then
        assocUpdate m c (fun e => summaryAddTxn e t) else m) cid = _
      by_cases hany : (m.any (fun p => p.1 == c)) = true
      · rw [if_pos hany, hkk, assocGet?_update_self]
      · rw [if_neg hany]
        have hnone : assocGet? m cid = none := by
          rw [← Option.not_isSome_iff_eq_none]
          intro hs
          rw [← hkk] at hs
          exact hany ((assocGet?_isSome_iff_any m c).mp hs)
        rw [hnone]
        rfl
    · have hc' : (c == cid) = false := by simpa using hc
      rw [show ((some c : Option String) == some cid) = (c == cid) from rfl,
        hc', if_neg (by simp)]
      show assocGet? (if (m.any (fun p => p.1 == c)) = true then
        assocUpdate m c (fun e => summaryAddTxn e t) else m) cid = _
      by_cases hany : (m.any (fun p => p.1 == c)) = true
      · rw [if_pos hany, assocGet?_update_ne _ _ _ _ hc']
      · rw [if_neg hany]

/-- The initial customer rows of the report's `summaryMap`. -/
theorem initSummaryMap_get (cs : List Customer) (cid : String)
    (m : List (String × SummaryAcc)) :
    assocGet? (cs.foldl summaryInitStep m) cid =
      (if (cs.any (fun c' => c'.id == some cid)) = true then
        some ({} : SummaryAcc)
      else assocGet? m cid) := by
  induction cs generalizing m with
  | nil => simp
  | cons c cs ih =>
    rw [List.foldl_cons, ih]
    cases hid : c.id with
    | none =>
      have : ((c :: cs).any (fun c' => c'.id == some cid)) =
          (cs.any (fun c' => c'.id == some cid)) := by
        simp [List.any_cons, hid]
      rw [this]
      split
      · rfl
      · unfold summaryInitStep
        rw [hid]
    | some k =>
      by_cases hk : (k == cid) = true
      · have hkk := beq_iff_eq.mp hk
        have : ((c :: cs).any (fun c' => c'.id == some cid)) = true := by
          simp only [List.any_cons, Bool.or_eq_true]
          left
          rw [hid, hkk]
          simp
        rw [this, if_pos rfl]
        split
        · rfl
        · unfold summaryInitStep
          rw [hid, hkk]
          exact assocGet?_set_self m cid _
      · have hk' : (k == cid) = false := by simpa using hk
        have hcons : ((c :: cs).any (fun c' => c'.id == some cid)) =
            (cs.any (fun c' => c'.id == some cid)) := by
          have : (c.id == some cid) = false := by
            rw [hid]
            simpa using hk
          simp [List.any_cons, this]
        rw [hcons]
        split
        · rfl
        · unfold summaryInitStep
          rw [hid]
          exact assocGet?_set_ne m k cid _ hk'

/-- Folding the transactions into the `summaryMap` accumulates, per present
key, exactly that customer's transactions in order. -/
theorem summaryFold_get (ts : List Txn) (m : List (String × SummaryAcc))
    (cid : String) :
    assocGet? (ts.foldl summaryTxnStep m) cid =
      (assocGet? m cid).map (fun acc =>
        (ts.filter (fun t => t.customer_id == some cid)).foldl
          (fun e t => summaryAddTxn e t) acc) := by
  induction ts generalizing m with
  | nil =>
    rw [List.foldl_nil, List.filter_nil]
    cases assocGet? m cid <;> rfl
  | cons t ts ih =>
    rw [List.foldl_cons, List.filter_cons, ih, summaryTxnStep_get]
    by_cases hkey : (t.customer_id == some cid) = true
    · rw [if_pos hkey, if_pos hkey, Option.map_map]
      cases assocGet? m cid <;> rfl
    · rw [if_neg hkey, if_neg hkey]

theorem summaryAddTxn_balance (e : SummaryAcc) (t : Txn) :
    (summaryAddTxn e t).balance = e.balance.add t.balance.nullishZeroNum := by
  simp only [summaryAddTxn]
  split <;> rfl

theorem summaryFold_balance (l : List Txn) (acc : SummaryAcc) :
    (l.foldl (fun e t => summaryAddTxn e t) acc).balance =
      l.foldl (fun b t => b.add t.balance.nullishZeroNum) acc.balance := by
  induction l generalizing acc with
  | nil => rfl
  | cons t l ih =>
    rw [List.foldl_cons, List.foldl_cons, ih, summaryAddTxn_balance]

/-- The customer-summary row reports
`max(max(balance-sum, 0), Number(outstanding_balance ?? 0))`. -/
theorem summaryRow_outstanding (cs : List Customer) (ts : List Txn)
    (c : Customer) (hc : c ∈ cs) :
    (mkCustomerSummaryRow (buildSummaryMap cs ts) c).outstanding =
      JsNum.max (JsNum.max (reportBalanceSum ts c.id) (.num 0))
        (c.outstanding_balance.nullishZeroNum) := by
  cases hid : c.id with
  | none =>
    simp only [mkCustomerSummaryRow, hid, Option.none_bind, Option.getD_none,
      reportBalanceSum]
  | some cid =>
    have hget : assocGet? (buildSummaryMap cs ts) cid =
        some ((ts.filter (fun t => t.customer_id == some cid)).foldl
          (fun e t => summaryAddTxn e t) ({} : SummaryAcc)) := by
      unfold buildSummaryMap
      rw [summaryFold_get, initSummaryMap_get]
      have hany : (cs.any (fun c' => c'.id == some cid)) = true :=
        List.any_eq_true.mpr ⟨c, hc, by rw [hid]; simp⟩
      rw [if_pos hany]
      rfl
    have hbal : (((ts.filter (fun t => t.customer_id == some cid)).foldl
        (fun e t => summaryAddTxn e t) ({} : SummaryAcc))).balance =
        reportBalanceSum ts (some cid) := by
      rw [summaryFold_balance]
      rfl
    simp only [mkCustomerSummaryRow, hid, Option.some_bind, hget,
      Option.getD_some, hbal]

/-- Membership in the customer-summary rows. -/
theorem buildCustomerSummaryRows_mem (cs : List Customer) (ts : List Txn)
    (row : CustomerSummaryRow) (h : row ∈ buildCustomerSummaryRows cs ts) :
    ∃ c ∈ cs, row = mkCustomerSummaryRow (buildSummaryMap cs ts) c := by
  unfold buildCustomerSummaryRows at h
  rw [(sortAscBy_perm _ _).mem_iff] at h
  obtain ⟨c, hc, hrow⟩ := List.mem_map.mp h
  exact ⟨c, hc, hrow.symm⟩

theorem specSummaryStep_get (m : List (String × SpecSummaryAcc)) (t : Txn)
    (cid : String) :
    assocGet? (specSummaryStep m t) cid =
      (if (resolvedCid t == cid) = true then
        (match assocGet? m cid with
         | some a => some (specAddTxn a t)
         | none => some (specAddTxn {} t))
      else assocGet? m cid) := by
  simp only [specSummaryStep]
  by_cases hc : (resolvedCid t == cid) = true
  · have hkk := beq_iff_eq.mp hc
    rw [if_pos hc]
    by_cases hany : (m.any (fun p => p.1 == resolvedCid t)) = true
    · rw [if_pos hany, hkk, assocGet?_update_self]
      have hsome : (assocGet? m cid).isSome = true := by
        rw [assocGet?_isSome_iff_any, ← hkk]
        exact hany
      obtain ⟨a, ha⟩ := Option.isSome_iff_exists.mp hsome
      rw [ha]
      rfl
    · rw [if_neg hany, assocGet?_append_single]
      have hnone : assocGet? m cid = none := by
        rw [← Option.not_isSome_iff_eq_none]
        intro hs
        rw [assocGet?_isSome_iff_any, ← hkk] at hs
        exact hany hs
      rw [hnone, hc]
      rfl
  · have hc' : (resolvedCid t == cid) = false := by simpa using hc
    rw [if_neg hc]
    by_cases hany : (m.any (fun p => p.1 == resolvedCid t)) = true
    · rw [if_pos hany, assocGet?_update_ne _ _ _ _ hc']
    · rw [if_neg hany, assocGet?_append_single, hc']
      cases assocGet? m cid <;> rfl

theorem specFold_get (l : List Txn) (m : List (String × SpecSummaryAcc))
    (cid : String) :
    assocGet? (l.foldl specSummaryStep m) cid =
      (match assocGet? m cid with
       | some a =>
         some ((l.filter (fun t => resolvedCid t == cid)).foldl
           (fun a t => specAddTxn a t) a)
       | none =>
         (match l.filter (fun t => resolvedCid t == cid) with
          | [] => none
          | t0 :: rest =>
            some (rest.foldl (fun a t => specAddTxn a t) (specAddTxn {} t0)))) := by
  induction l generalizing m with
  | nil =>
    rw [List.foldl_nil, List.filter_nil]
    cases assocGet? m cid <;> rfl
  | cons t l ih =>
    rw [List.foldl_cons, List.filter_cons, ih, specSummaryStep_get]
    by_cases hkey : (resolvedCid t == cid) = true
    · rw [if_pos hkey, if_pos hkey]
      cases hget : assocGet? m cid <;> rfl
    · rw [if_neg hkey, if_neg hkey]

theorem assocUpdate_keys {β : Type} (m : List (String × β)) (k : String)
    (f : β → β) : (assocUpdate m k f).map Prod.fst = m.map Prod.fst := by
  unfold assocUpdate
  rw [List.map_map]
  apply List.map_congr_left
  intro p _
  by_cases hp : (p.1 == k) = true
  · simp [Function.comp_apply, hp, (beq_iff_eq.mp hp).symm]
  · have hp' : ¬ p.1 = k := by simpa using hp
    simp [Function.comp_apply, hp']

theorem specFold_keys_nodup (l : List Txn)
    (m : List (String × SpecSummaryAcc)) (h : (m.map Prod.fst).Nodup) :
    ((l.foldl specSummaryStep m).map Prod.fst).Nodup := by
  induction l generalizing m with
  | nil => exact h
  | cons t l ih =>
    rw [List.foldl_cons]
    apply ih
    simp only [specSummaryStep]
    by_cases hany : (m.any (fun p => p.1 == resolvedCid t)) = true
    · rw [if_pos hany, assocUpdate_keys]
      exact h
    · rw [if_neg hany]
      have hnotin : resolvedCid t ∉ m.map Prod.fst := by
        intro hin
        apply hany
        rw [List.any_eq_true]
        obtain ⟨p, hp, hfst⟩ := List.mem_map.mp hin
        exact ⟨p, hp, by rw [hfst]; simp⟩
      simp [List.nodup_append, h, hnotin]

theorem assocGet?_of_mem_nodup {β : Type} (m : List (String × β))
    (p : String × β) (hm : p ∈ m) (hnd : (m.map Prod.fst).Nodup) :
    assocGet? m p.1 = some p.2 := by
  induction m with
  | nil => simp at hm
  | cons q m ih =>
    rw [List.map_cons, List.nodup_cons] at hnd
    rcases List.mem_cons.mp hm with rfl | hm'
    · rw [assocGet?, if_pos (by simp)]
    · by_cases hq : (q.1 == p.1) = true
      · exfalso
        apply hnd.1
        rw [beq_iff_eq.mp hq]
        exact List.mem_map.mpr ⟨p, hm', rfl⟩
      · rw [assocGet?, if_neg (by simpa using hq)]
        exact ih hm' hnd.2

theorem specAddTxn_balance (a : SpecSummaryAcc) (t : Txn) :
    (specAddTxn a t).balance = a.balance + (toFiniteNumber t.balance).getD 0 := by
  simp only [specAddTxn]
  split <;> rfl

theorem specFold_balance (l : List Txn) (acc : SpecSummaryAcc) :
    (l.foldl (fun a t => specAddTxn a t) acc).balance =
      l.foldl (fun b t => b + (toFiniteNumber t.balance).getD 0) acc.balance := by
  induction l generalizing acc with
  | nil => rfl
  | cons t l ih =>
    rw [List.foldl_cons, List.foldl_cons, ih, specAddTxn_balance]

theorem maxZero_num_nonneg (x : ℚ) (hx : 0 ≤ x) :
    JsNum.max (.num x) (.num 0) = .num x := by
  unfold JsNum.max
  rw [if_neg (by rintro (h | h) <;> simp at h)]
  by_cases h : JsNum.le (.num x) (.num 0) = true
  · rw [if_pos h]
    have hx0 : x ≤ 0 := by simpa [JsNum.le] using h
    rw [le_antisymm hx0 hx]
  · rw [if_neg h]

/-- Every bucket of the spec-modelled aggregator holds the fold of its own
transactions. -/
theorem computeTransactionSummary_bucket (T : Option (List (Option Txn)))
    (pr : String × Option PerCustomerSummary)
    (hpr : pr ∈ (computeTransactionSummary T).perCustomer.getD []) :
    outstandingOf pr.2 = .num (max (specBalanceQ T pr.1) 0) := by
  simp only [computeTransactionSummary, Option.getD_some] at hpr
  obtain ⟨q, hq, rfl⟩ := List.mem_map.mp hpr
  have hqget :
      assocGet? (((T.getD []).filterMap id).foldl specSummaryStep []) q.1 =
        some q.2 :=
    assocGet?_of_mem_nodup _ q hq (specFold_keys_nodup _ [] (by simp))
  rw [specFold_get] at hqget
  have hbal : q.2.balance = specBalanceQ T q.1 := by
    unfold specBalanceQ
    cases hfil : ((T.getD []).filterMap id).filter
        (fun t => resolvedCid t == q.1) with
    | nil =>
      rw [hfil] at hqget
      simp [assocGet?] at hqget
    | cons t0 rest =>
      rw [hfil] at hqget
      simp only [assocGet?] at hqget
      obtain hq2 := (Option.some.inj hqget).symm
      rw [hq2, specFold_balance, specAddTxn_balance, List.foldl_cons]
  show JsNum.max ((JsVal.num (max q.2.balance 0)).orZero) (.num 0) = _
  rw [JsVal.orZero_num, maxZero_num_nonneg _ (le_max_right _ _), hbal]

/-- A customer with a cached outstanding-balance hint of 100. -/
def hintCustC6 : Customer :=
  { id := some "c1", full_name := some "Hinted", outstanding_balance := .num 100 }

/-- A sale for that customer whose stored balance is 50 (< the hint). -/
def balTxnC6 : Txn :=
  { id := some "t1", customer_id := some "c1", type := some "sale",
    amount := .num 80, paid_amount := .num 30, balance := .num 50 }

theorem summaryMapC6_eval :
    buildSummaryMap [hintCustC6] [balTxnC6] =
      [("c1", summaryAddTxn {} balTxnC6)] := rfl

theorem summaryAccC6_eval :
    summaryAddTxn {} balTxnC6 =
      ({ totalQuantity := .num 0, totalAmount := .num 80,
         totalPaid := .num 30, balance := .num 50 } : SummaryAcc) := by
  simp only [summaryAddTxn, balTxnC6]
  rw [if_neg (by decide)]
  simp only [SummaryAcc.mk.injEq]
  refine ⟨?_, ?_, ?_, ?_⟩ <;>
    · show JsNum.num _ = JsNum.num _
      norm_num

theorem specAccC6_eval :
    specAddTxn {} balTxnC6 =
      ({ totalSales := 80, totalCollections := 0, balance := 50,
         transactionCount := 1 } : SpecSummaryAcc) := by
  simp only [specAddTxn, balTxnC6]
  rw [if_neg (by decide)]
  simp only [SpecSummaryAcc.mk.injEq]
  norm_num [toFiniteNumber]
  exact ⟨rfl, rfl⟩

theorem specAccsC6_eval :
    (((some [some balTxnC6] : Option (List (Option Txn))).getD
        []).filterMap id).foldl specSummaryStep [] =
      [("c1", specAddTxn {} balTxnC6)] := rfl

theorem summaryC6_eval :
    computeTransactionSummary (some [some balTxnC6]) =
      { perCustomer := some [("c1", some
          { totalSales := .num 80, totalCollections := .num 0,
            outstanding := .num 50, transactionCount := 1 })]
        totals :=
          { totalSales := .num 80, totalCollections := .num 0,
            outstanding := .num 50 } } := by
  simp only [computeTransactionSummary, specAccsC6_eval, specAccC6_eval]
  norm_num

/-- C6, counterexample: with a cached hint of 100 and a derived transaction
balance of 50, the customer-summary report row shows 100
(= max(hint, derived, 0)) but the outstanding-breakdown entry for the same
customer shows 50 — not the claimed max(hint, derived, 0) = 100. -/
theorem outstanding_hint_counterexample :
    ((buildCustomerSummaryRows [hintCustC6] [balTxnC6]).map
        (fun r => r.outstanding) = [.num 100])
    ∧ ((buildOutstandingBreakdown
          (computeTransactionSummary (some [some balTxnC6]))
          (some [some balTxnC6]) (some [some hintCustC6])).map
        (fun e => e.outstanding) = [.num 50])
    ∧ specBalanceQ (some [some balTxnC6]) "c1" = 50
    ∧ hintCustC6.outstanding_balance = .num 100
    ∧ JsNum.num 50 ≠ JsNum.num (max 100 (max 50 0)) := by
  refine ⟨?_, ?_, ?_, rfl, by norm_num⟩
  · show [(mkCustomerSummaryRow (buildSummaryMap [hintCustC6] [balTxnC6])
      hintCustC6).outstanding] = [.num 100]
    rw [summaryMapC6_eval]
    show [JsNum.max (JsNum.max (summaryAddTxn {} balTxnC6).balance (.num 0))
      ((JsVal.num 100).nullishZeroNum)] = [.num 100]
    rw [summaryAccC6_eval]
    decide
  · rw [summaryC6_eval]
    decide
  · show (0 : ℚ) + 50 = 50
    norm_num

/-- C6 (amended): the customer-summary report rows report
`max(hint, balance-sum, 0)`, while outstanding breakdown entries report
`max(derived summary outstanding, 0)` — the cached hint is not consulted on
that path. -/
theorem outstanding_amounts_vs_hint :
    (∀ (cs : List Customer) (ts : List Txn),
        (∀ c ∈ cs,
            (mkCustomerSummaryRow (buildSummaryMap cs ts) c).outstanding =
              JsNum.max (JsNum.max (reportBalanceSum ts c.id) (.num 0))
                (c.outstanding_balance.nullishZeroNum))
        ∧ ∀ row ∈ buildCustomerSummaryRows cs ts,
            ∃ c ∈ cs, row = mkCustomerSummaryRow (buildSummaryMap cs ts) c)
    ∧ (∀ (T : Option (List (Option Txn)))
        (C : Option (List (Option Customer))),
        ∀ e ∈ buildOutstandingBreakdown (computeTransactionSummary T) T C,
          e.outstanding = .num (max (specBalanceQ T e.customerId) 0)) := by
  constructor
  · intro cs ts
    exact ⟨fun c hc => summaryRow_outstanding cs ts c hc,
      fun row hrow => buildCustomerSummaryRows_mem cs ts row hrow⟩
  · intro T C e he
    obtain ⟨pr, hpr, hmk⟩ := mem_outstanding_inv _ T C e he
    obtain ⟨-, -, hcid, hout, -⟩ := mkOutstandingEntry_inv _ _ _ _ hmk
    rw [hout, hcid, computeTransactionSummary_bucket T pr hpr]

theorem outstanding_amounts_vs_hint_witness :
    (mkCustomerSummaryRow (buildSummaryMap [hintCustC6] [balTxnC6])
        hintCustC6).outstanding =
      JsNum.max (JsNum.max (reportBalanceSum [balTxnC6] hintCustC6.id)
        (.num 0)) (hintCustC6.outstanding_balance.nullishZeroNum) :=
  (outstanding_amounts_vs_hint.1 [hintCustC6] [balTxnC6]).1 hintCustC6
    (List.mem_singleton.mpr rfl)

end Kadak
